import Mathlib

/-!
Verification of the rekordbox-to-jellyfin playlist migration script
(src/rekordbox_to_jellyfin.py) via a shallow embedding in Lean.

Python dictionaries are modelled as insertion-ordered association lists
(`alookup` finds the first binding, `dictInsert` replaces in place or
appends at the end), Python sets of strings as lists with membership
queries, and Python strings as Lean strings.  The third-party
`pathvalidate.sanitize_filename` function and the builtin `hash` are
external to the repository, so they are parameters of the embedding
(bundled in `SanEnv`); concrete instances are supplied in witnesses.
Filesystem canonicalisation (`Path.resolve`) is likewise an oracle
parameter returning either the resolved path components or an error
standing for a raised exception.
-/

namespace RbJelly

/-- Decimal digit character, as produced by Python string formatting of
nonnegative integers (and by the f-string in the collision loop). -/
def decDigit : Nat → Char
  | 0 => '0'
  | 1 => '1'
  | 2 => '2'
  | 3 => '3'
  | 4 => '4'
  | 5 => '5'
  | 6 => '6'
  | 7 => '7'
  | 8 => '8'
  | _ => '9'

/-- Fuel-driven most-significant-first decimal digit list of a natural
number; with fuel at least 1 and the number below 10 to the fuel it is the
standard decimal representation. -/
def natToDigitsAux : Nat → Nat → List Char
  | 0, _ => []
  | fuel + 1, n =>
    if n < 10 then [decDigit n]
    else natToDigitsAux fuel (n / 10) ++ [decDigit (n % 10)]

/-- Decimal string of a natural number, modelling the Python f-string
rendering of the collision counter. -/
def natStr (n : Nat) : String :=
  String.mk (natToDigitsAux (n + 1) n)

/-- First binding of a key in an insertion-ordered association list;
models Python dictionary lookup. -/
def alookup {α : Type} : List (String × α) → String → Option α
  | [], _ => none
  | (k, v) :: rest, key => if k = key then some v else alookup rest key

/-- Python dictionary assignment: replace the value at the first
occurrence of the key, otherwise append the binding at the end. -/
def dictInsert {α : Type} : List (String × α) → String → α → List (String × α)
  | [], k, v => [(k, v)]
  | (k1, v1) :: rest, k, v =>
    if k1 = k then (k, v) :: rest else (k1, v1) :: dictInsert rest k v

/-- Python set.add on a set of strings modelled as a duplicate-free list. -/
def setAdd (s : List String) (x : String) : List String :=
  if x ∈ s then s else s ++ [x]

/-- Component-wise path prefix test, modelling the success condition of
pathlib Path.relative_to on resolved absolute paths. -/
def listIsPref : List String → List String → Bool
  | [], _ => true
  | _ :: _, [] => false
  | a :: as, b :: bs => a = b && listIsPref as bs

/-- External dependencies of UniqueNameResolver: the pathvalidate
sanitizer and the Python string hash, both outside this repository. -/
structure SanEnv where
  sanitize : String → String
  hashFn : String → Nat

/-- State of class UniqueNameResolver: name_mapping is the Python dict
from original names to resolved names, used_names the set of claimed
resolved names. -/
structure Resolver where
  name_mapping : List (String × String)
  used_names : List String
deriving DecidableEq, Repr

/-- Fresh UniqueNameResolver instance (the Python constructor). -/
def Resolver.empty : Resolver := ⟨[], []⟩

/-- Candidate name tried by the collision loop for a given counter. -/
def candName (base : String) (k : Nat) : String :=
  base ++ (" (") ++ natStr k ++ (")")

/-- Python truthiness test "not s or s.isspace()": empty or
whitespace-only. -/
def falsyOrSpace (s : String) : Bool :=
  s.data.all (fun c => c.isWhitespace)

/-- Base sanitized name after the empty-result fallback, lines 58-62 of
get_unique_name: sanitize, then substitute playlist_{hash % 10000} when
the result is empty or whitespace-only. -/
def pyBase (env : SanEnv) (original : String) : String :=
  let base0 := env.sanitize original
  if falsyOrSpace base0 then ("playlist_") ++ natStr (env.hashFn original % 10000)
  else base0

/-- Collision loop of get_unique_name (lines 71-79): try
"{base} (counter)" for counter = start, start+1, ... until a candidate is
not in used. The fuel bound is never exhausted when called with fuel
larger than the number of used names (proved below). -/
def probeSuffix (used : List String) (base : String) : Nat → Nat → String
  | 0, counter => candName base counter
  | fuel + 1, counter =>
    if candName base counter ∈ used then probeSuffix used base fuel (counter + 1)
    else candName base counter

/-- UniqueNameResolver.get_unique_name, returning the name and the updated
resolver state. -/
def getUniqueName (env : SanEnv) (r : Resolver) (original : String) :
    String × Resolver :=
  match alookup r.name_mapping original with
  | some cached => (cached, r)
  | none =>
    let base := pyBase env original
    if base ∈ r.used_names then
      let c := probeSuffix r.used_names base (r.used_names.length + 1) 1
      (c, ⟨r.name_mapping ++ [(original, c)], r.used_names ++ [c]⟩)
    else
      (base, ⟨r.name_mapping ++ [(original, base)], r.used_names ++ [base]⟩)

/-- Run get_unique_name on a list of inputs in order on one instance,
collecting the outputs and the final state. -/
def runNames (env : SanEnv) (r : Resolver) : List String → List String × Resolver
  | [] => ([], r)
  | n :: ns =>
    let p := getUniqueName env r n
    let q := runNames env p.2 ns
    (p.1 :: q.1, q.2)

/-- Name expected by the specification for the i-th distinct original
name hitting one base within a scope: the base itself first, then
"base (i)". -/
def expectedName (base : String) (i : Nat) : String :=
  if i = 0 then base else candName base i

/-- Dataclass Track of the script.  file_path holds the string form of
the pathlib Path stored there (Path() prints as "."). -/
structure Track where
  title : String
  artist : String
  file_path : String
  playlist_path : String
deriving DecidableEq, Repr

/-- Dataclass Playlist, resolved form.  The children field of the Python
dataclass is always the empty list in the database extraction path and is
never read, so it is omitted here. -/
structure Playlist where
  name : String
  path : String
  tracks : List Track
deriving DecidableEq, Repr

/-- Row of the DjmdContent table as consumed by the extractor.  Optional
fields stand for Python None (and, for Title and FolderPath, possibly the
empty string, which Python treats as falsy just like None). -/
structure Content where
  rb_local_deleted : Bool
  Title : Option String
  ArtistName : Option String
  FolderPath : Option String
deriving DecidableEq, Repr

/-- Song row of a playlist: the Content relation may be missing. -/
structure Song where
  Content : Option Content
deriving DecidableEq, Repr

/-- Playlist record of the rekordbox database as consumed by
_extract_from_database. -/
structure RBPlaylist where
  ID : String
  ParentID : String
  Name : String
  Attribute : Nat
  rb_local_deleted : Bool
  Songs : List Song
deriving DecidableEq, Repr

/-- Track title: content.Title or "Unknown" (falsy Title replaced). -/
def contentTitle (c : Content) : String :=
  match c.Title with
  | some t => if t = ("") then ("Unknown") else t
  | none => ("Unknown")

/-- Track artist: content.Artist.Name if content.Artist else "Unknown". -/
def contentArtist (c : Content) : String :=
  match c.ArtistName with
  | some a => a
  | none => ("Unknown")

/-- Track file path: Path(content.FolderPath) if content.FolderPath else
Path(); the empty pathlib Path prints as ".". -/
def contentPath (c : Content) : String :=
  match c.FolderPath with
  | some p => if p = ("") then (".") else p
  | none => (".")

/-- One iteration of the track extraction loop (lines 189-209): songs
without content are skipped, deleted tracks are skipped, the rest become
Track values. -/
def songTrack (playlistName : String) (s : Song) : Option Track :=
  match s.Content with
  | none => none
  | some c =>
    if c.rb_local_deleted then none
    else some ⟨contentTitle c, contentArtist c, contentPath c, playlistName⟩

/-- Tracks collected for a record: only records with Attribute equal to 0
have their Songs walked (folders contribute no tracks). -/
def recTracks (r : RBPlaylist) : List Track :=
  if r.Attribute = 0 then r.Songs.filterMap (songTrack r.Name) else []

/-- Value stored in the playlists_by_id dictionary for one record. -/
structure Entry where
  tracks : List Track
  parent_id : String
  is_folder : Bool
  original_name : String
deriving DecidableEq, Repr

/-- Entry built by the first pass for one record. -/
def mkEntry (r : RBPlaylist) : Entry :=
  ⟨recTracks r, r.ParentID, r.Attribute = 1 || r.Attribute = 4, r.Name⟩

/-- First pass of _extract_from_database: drop records flagged
rb_local_deleted, then fill the playlists_by_id dictionary keyed by ID in
iteration order. -/
def buildById (records : List RBPlaylist) : List (String × Entry) :=
  (records.filter (fun r => !r.rb_local_deleted)).foldl
    (fun m r => dictInsert m r.ID (mkEntry r)) []

/-- Measure for the recursion of calculate_path_info: the number of
record ids not yet in the visited set. -/
def pathMeasure (byId : List (String × Entry)) (visited : List String) : Nat :=
  ((byId.map Prod.fst).toFinset \ visited.toFinset).card

/-- calculate_path_info (lines 233-262).  Returns the path component
list, the parent path string, and the updated per-scope resolver map
(name_resolvers, threaded state).  The visited set breaks parent cycles;
a missing parent id yields an empty component list. -/
def calculatePathInfo (env : SanEnv) (byId : List (String × Entry)) (pid : String)
    (visited : List String) (resolvers : List (String × Resolver)) :
    (List String × String) × List (String × Resolver) :=
  if pid ∈ visited then (([], ""), resolvers)
  else
    match h : alookup byId pid with
    | none => (([], ""), resolvers)
    | some e =>
      if e.parent_id = ("root") then
        let r := (alookup resolvers ("root")).getD Resolver.empty
        let p := getUniqueName env r e.original_name
        (([p.1], "root"), dictInsert resolvers ("root") p.2)
      else
        let rec1 := calculatePathInfo env byId e.parent_id (pid :: visited) resolvers
        let parentPath := String.intercalate ("/") rec1.1.1
        let r := (alookup rec1.2 parentPath).getD Resolver.empty
        let p := getUniqueName env r e.original_name
        ((rec1.1.1 ++ [p.1], parentPath), dictInsert rec1.2 parentPath p.2)
termination_by pathMeasure byId visited
decreasing_by
  have hk : pid ∈ byId.map Prod.fst := by
    induction byId with
    | nil => simp [alookup] at h
    | cons hd tl ih =>
      simp only [alookup] at h
      by_cases hh : hd.1 = pid
      · simp [hh]
      · rcases hd with ⟨k1, v1⟩
        simp only [hh] at h
        simp only [List.map_cons, List.mem_cons]
        right
        exact ih (by simpa [alookup, hh] using h)
  have hset : (pid :: visited).toFinset = insert pid visited.toFinset := by
    simp
  unfold pathMeasure
  rw [hset]
  have hdiff : (byId.map Prod.fst).toFinset \ insert pid visited.toFinset
      = ((byId.map Prod.fst).toFinset \ visited.toFinset).erase pid := by
    ext x
    simp only [Finset.mem_sdiff, Finset.mem_insert, Finset.mem_erase]
    tauto
  rw [hdiff]
  apply Finset.card_erase_lt_of_mem
  simp only [Finset.mem_sdiff, List.mem_toFinset]
  exact ⟨hk, by simpa using (by assumption : ¬ pid ∈ visited)⟩

/-- Condition under which the final loop keeps a record (line 272):
"if not is_folder and playlist.tracks". -/
def includeEntry (e : Entry) : Bool :=
  !e.is_folder && !e.tracks.isEmpty

/-- Final loop of _extract_from_database (lines 265-287): iterate the
playlists_by_id dictionary in insertion order, resolve paths for the kept
records, and build the resolved Playlist values. -/
def extractLoop (env : SanEnv) (byId : List (String × Entry)) :
    List (String × Entry) → List (String × Resolver) →
    List Playlist × List (String × Resolver)
  | [], st => ([], st)
  | (pid, e) :: rest, st =>
    if includeEntry e then
      let res := calculatePathInfo env byId pid [] st
      let comps := res.1.1
      let name := comps.getLastD ("")
      let path :=
        if comps.length > 1 then String.intercalate ("/") comps.dropLast else ""
      let q := extractLoop env byId rest res.2
      (⟨name, path, e.tracks⟩ :: q.1, q.2)
    else extractLoop env byId rest st

/-- _extract_from_database over an in-memory record list, also exposing
the final per-scope resolver map. -/
def extractFromDatabaseFull (env : SanEnv) (records : List RBPlaylist) :
    List Playlist × List (String × Resolver) :=
  extractLoop env (buildById records) (buildById records) []

/-- _extract_from_database: the resolved playlist list it returns. -/
def extractFromDatabase (env : SanEnv) (records : List RBPlaylist) :
    List Playlist :=
  (extractFromDatabaseFull env records).1

/-- Filesystem canonicalisation oracle: the behaviour of
pathlib Path.resolve on the host, returning the resolved absolute path as
a component list, or an error standing for a raised OS exception. -/
def ResolveOracle : Type := String → Except String (List String)

/-- State of class PathConverter: the resolved source root as a component
list, the destination root string, and the rejection set. -/
structure PathConverter where
  crates_root : List String
  jellyfin_root : String
  invalid_paths : List String
deriving DecidableEq, Repr

/-- Posix rendering of the path relative to the root, as produced by
relative_path.as_posix(); the empty relative path prints as ".". -/
def posixJoin (comps : List String) : String :=
  match comps with
  | [] => "."
  | _ => String.intercalate ("/") comps

/-- PathConverter.validate_and_convert_path (lines 380-400): resolve the
input, reject paths outside the source root recording the original input
string, convert the rest by forward-slash joining under the destination
root.  A resolution error returns None without touching the rejection
set. -/
def validateAndConvertPath (resolve : ResolveOracle) (pc : PathConverter)
    (file_path : String) : Option String × PathConverter :=
  match resolve file_path with
  | .error _ => (none, pc)
  | .ok comps =>
    if listIsPref pc.crates_root comps then
      (some (pc.jellyfin_root ++ ("/") ++ posixJoin (comps.drop pc.crates_root.length)), pc)
    else
      (none, { pc with invalid_paths := setAdd pc.invalid_paths file_path })

/-- PathConverter.get_invalid_paths: snapshot copy of the rejection set
(copying is the identity in this pure model). -/
def getInvalidPaths (pc : PathConverter) : List String :=
  pc.invalid_paths

/-- The value component of validate_and_convert_path depends only on the
oracle and the configured roots, never on the accumulated rejection
set. -/
def convertPure (resolve : ResolveOracle) (croot : List String)
    (jroot : String) (file_path : String) : Option String :=
  match resolve file_path with
  | .error _ => none
  | .ok comps =>
    if listIsPref croot comps then
      some (jroot ++ ("/") ++ posixJoin (comps.drop croot.length))
    else none

/-- Track validation loop of create_playlist_structure (lines 463-469):
convert each track path in order, keep the successes paired with their
destination paths, thread the converter state. -/
def validTracks (resolve : ResolveOracle) (pc : PathConverter) :
    List Track → List (Track × String) × PathConverter
  | [] => ([], pc)
  | t :: ts =>
    let p := validateAndConvertPath resolve pc t.file_path
    let q := validTracks resolve p.2 ts
    match p.1 with
    | some jp => ((t, jp) :: q.1, q.2)
    | none => q

/-- Contents written by _write_m3u_file (lines 482-489): the #EXTM3U
header line then, per track, an EXTINF line and the destination path,
each newline-terminated. -/
def m3uContent (tracks : List (Track × String)) : String :=
  ("#EXTM3U\n") ++ String.join (tracks.map
    (fun tp => ("#EXTINF:-1,") ++ tp.1.artist ++ (" - ") ++ tp.1.title ++ ("\n") ++ tp.2 ++ ("\n")))

/-- Python str.replace for a single-character pattern (the script only
calls replace with the one-character pattern "/"): every occurrence of
the character is replaced by the replacement string. -/
def replaceChar (c : Char) (rep : String) (s : String) : String :=
  String.mk (s.data.foldr
    (fun ch acc => if ch = c then rep.data ++ acc else ch :: acc) [])

/-- Composite flat-mode raw name (lines 437-443): path separators
replaced by " - ", followed by " - " and the playlist name, or just the
name at root level. -/
def flatRaw (p : Playlist) : String :=
  if p.path ≠ ("") then (replaceChar ('/') (" - ") p.path) ++ (" - ") ++ p.name
  else p.name

/-- Loop body of PlaylistGenerator.create_playlist_structure (lines
433-480), in both modes, threading the flat-mode resolver, the path
converter, the created_playlists dictionary and the list of file writes
(path, contents) in write order. -/
def createLoop (resolve : ResolveOracle) (env : SanEnv) (outputDir : String)
    (flat : Bool) :
    List Playlist → Resolver → PathConverter →
    List (String × String) → List (String × String) →
    List (String × String) × List (String × String) × PathConverter
  | [], _, pc, created, writes => (created, writes, pc)
  | p :: rest, nr, pc, created, writes =>
    let step :=
      if flat then
        let q := getUniqueName env nr (flatRaw p)
        (outputDir ++ ("/") ++ q.1 ++ (".m3u"), q.1, q.2)
      else if p.path ≠ ("") then
        (outputDir ++ ("/") ++ p.path ++ ("/") ++ p.name ++ (".m3u"),
          p.path ++ ("/") ++ p.name, nr)
      else
        (outputDir ++ ("/") ++ p.name ++ (".m3u"), p.name, nr)
    let vt := validTracks resolve pc p.tracks
    if vt.1.isEmpty then
      createLoop resolve env outputDir flat rest step.2.2 vt.2 created writes
    else
      createLoop resolve env outputDir flat rest step.2.2 vt.2
        (dictInsert created step.2.1 step.1)
        (writes ++ [(step.1, m3uContent vt.1)])

/-- PlaylistGenerator.create_playlist_structure: returns the
created_playlists dictionary, the files written (path and contents, in
write order) and the final converter state. -/
def createPlaylistStructure (resolve : ResolveOracle) (env : SanEnv)
    (outputDir : String) (flat : Bool) (playlists : List Playlist)
    (pc : PathConverter) :
    List (String × String) × List (String × String) × PathConverter :=
  createLoop resolve env outputDir flat playlists Resolver.empty pc [] []

/-- Identity sanitizer environment: models pathvalidate.sanitize_filename
on names free of filesystem-illegal characters, with a trivial hash. -/
def envId : SanEnv := ⟨fun s => s, fun _ => 0⟩

/-- Song carrying one live track with the given title, artist and path. -/
def mkSong (t a f : String) : Song :=
  ⟨some ⟨false, some t, some a, some f⟩⟩

/-- Catalog with two non-deleted root-level sibling playlists that carry
the identical name. -/
def c1Records : List RBPlaylist :=
  [⟨("1"), ("root"), ("Foo"), 0, false, [mkSong ("T1") ("A1") ("/m/x1.mp3")]⟩,
   ⟨("2"), ("root"), ("Foo"), 0, false, [mkSong ("T2") ("A2") ("/m/x2.mp3")]⟩]

/-- playlists_by_id dictionary built from c1Records. -/
def c1ById : List (String × Entry) :=
  [(("1"), ⟨[⟨("T1"), ("A1"), ("/m/x1.mp3"), ("Foo")⟩], ("root"), false, ("Foo")⟩),
   (("2"), ⟨[⟨("T2"), ("A2"), ("/m/x2.mp3"), ("Foo")⟩], ("root"), false, ("Foo")⟩)]

/-- Catalog for the C1 witness: a folder Dir with two differently named
child playlists. -/
def c1wRecords : List RBPlaylist :=
  [⟨("F"), ("root"), ("Dir"), 1, false, []⟩,
   ⟨("1"), ("F"), ("X"), 0, false, [mkSong ("T1") ("A1") ("/m/x1.mp3")]⟩,
   ⟨("2"), ("F"), ("Y"), 0, false, [mkSong ("T2") ("A2") ("/m/x2.mp3")]⟩]

/-- playlists_by_id dictionary built from c1wRecords. -/
def c1wById : List (String × Entry) :=
  [(("F"), ⟨[], ("root"), true, ("Dir")⟩),
   (("1"), ⟨[⟨("T1"), ("A1"), ("/m/x1.mp3"), ("X")⟩], ("F"), false, ("X")⟩),
   (("2"), ⟨[⟨("T2"), ("A2"), ("/m/x2.mp3"), ("Y")⟩], ("F"), false, ("Y")⟩)]

/-- Catalog with a non-deleted folder record and a non-deleted empty leaf
playlist. -/
def c2Records : List RBPlaylist :=
  [⟨("F"), ("root"), ("Folder"), 1, false, []⟩,
   ⟨("E"), ("root"), ("Empty"), 0, false, []⟩]

/-- Cyclic catalog: record A names B as its parent and B names A. -/
def cycleRecords : List RBPlaylist :=
  [⟨("A"), ("B"), ("NameA"), 0, false, [mkSong ("TA") ("ArA") ("/m/a.mp3")]⟩,
   ⟨("B"), ("A"), ("NameB"), 0, false, [mkSong ("TB") ("ArB") ("/m/b.mp3")]⟩]

/-- playlists_by_id dictionary built from cycleRecords. -/
def cycleById : List (String × Entry) :=
  [(("A"), ⟨[⟨("TA"), ("ArA"), ("/m/a.mp3"), ("NameA")⟩], ("B"), false, ("NameA")⟩),
   (("B"), ⟨[⟨("TB"), ("ArB"), ("/m/b.mp3"), ("NameB")⟩], ("A"), false, ("NameB")⟩)]

/-- Catalog with an orphan record (its parent id matches no record and is
not the root sentinel) next to a genuine root-level record of the same
name. -/
def orphanRecords : List RBPlaylist :=
  [⟨("1"), ("zzz"), ("Foo"), 0, false, [mkSong ("T1") ("A1") ("/m/x1.mp3")]⟩,
   ⟨("2"), ("root"), ("Foo"), 0, false, [mkSong ("T2") ("A2") ("/m/x2.mp3")]⟩]

/-- playlists_by_id dictionary built from orphanRecords. -/
def orphanById : List (String × Entry) :=
  [(("1"), ⟨[⟨("T1"), ("A1"), ("/m/x1.mp3"), ("Foo")⟩], ("zzz"), false, ("Foo")⟩),
   (("2"), ⟨[⟨("T2"), ("A2"), ("/m/x2.mp3"), ("Foo")⟩], ("root"), false, ("Foo")⟩)]

/-- Resolution oracle mapping every input to one fixed in-root file. -/
def okOracle : ResolveOracle := fun _ => Except.ok [("crates"), ("t.mp3")]

/-- Converter configured with source root /crates and destination
/data/music, empty rejection set. -/
def pcCrates : PathConverter := ⟨[("crates")], ("/data/music"), []⟩

/-- Two playlists whose flat-mode composite strings coincide: "Deep
House" nested under "Electronic", and a root playlist literally named
"Electronic - Deep House". -/
def c8Playlists : List Playlist :=
  [⟨("Deep House"), ("Electronic"),
    [⟨("T1"), ("A1"), ("/m/x1.mp3"), ("Deep House")⟩]⟩,
   ⟨("Electronic - Deep House"), (""),
    [⟨("T2"), ("A2"), ("/m/x2.mp3"), ("Electronic - Deep House")⟩]⟩]

/-- Catalog with a single root-level playlist holding one track. -/
def simpleRecords : List RBPlaylist :=
  [⟨("1"), ("root"), ("Solo"), 0, false, [mkSong ("T") ("A") ("/m/t.mp3")]⟩]

/-- Per-scope resolver state invariant: every resolved name recorded in
name_mapping is claimed in used_names, and distinct original names are
mapped to distinct resolved names. -/
def WFres (r : Resolver) : Prop :=
  (∀ p ∈ r.name_mapping, p.2 ∈ r.used_names) ∧
  (∀ p ∈ r.name_mapping, ∀ q ∈ r.name_mapping, p.1 ≠ q.1 → p.2 ≠ q.2)

/-- Invariant for the per-scope resolver map: every resolver in it is
well formed. -/
def WFmap (st : List (String × Resolver)) : Prop :=
  ∀ p ∈ st, WFres p.2

/-- Resolver state extension: every recorded original-to-resolved binding
is preserved. -/
def resLe (r r2 : Resolver) : Prop :=
  ∀ o w, alookup r.name_mapping o = some w → alookup r2.name_mapping o = some w

/-- Resolver map extension: every scope present stays present and its
resolver only grows. -/
def stLe (st st2 : List (String × Resolver)) : Prop :=
  ∀ k r, alookup st k = some r →
    ∃ r2, alookup st2 k = some r2 ∧ resLe r r2

theorem decDigit_inj : ∀ m < 10, ∀ n < 10, decDigit m = decDigit n → m = n := by
  decide

theorem natToDigitsAux_ne_nil (fuel n : Nat) (h : 0 < fuel) :
    natToDigitsAux fuel n ≠ [] := by
  cases fuel with
  | zero => omega
  | succ f =>
    simp only [natToDigitsAux]
    split
    · simp
    · simp

theorem natToDigitsAux_inj : ∀ f1 : Nat, ∀ m n f2 : Nat, m < f1 → n < f2 →
    natToDigitsAux f1 m = natToDigitsAux f2 n → m = n := by
  intro f1
  induction f1 with
  | zero => intro m n f2 hm; omega
  | succ a ih =>
    intro m n f2 hm hn heq
    cases f2 with
    | zero => omega
    | succ b =>
      simp only [natToDigitsAux] at heq
      by_cases h1 : m < 10
      · by_cases h2 : n < 10
        · simp only [if_pos h1, if_pos h2] at heq
          exact decDigit_inj m h1 n h2 (List.singleton_injective heq ▸ rfl)
        · simp only [if_pos h1, if_neg h2] at heq
          exfalso
          have hlen := congrArg List.length heq
          simp only [List.length_singleton, List.length_append] at hlen
          have hne := natToDigitsAux_ne_nil b (n / 10) (by omega)
          have : (natToDigitsAux b (n / 10)).length ≠ 0 := by
            intro hz
            exact hne (List.length_eq_zero.mp hz)
          omega
      · by_cases h2 : n < 10
        · simp only [if_neg h1, if_pos h2] at heq
          exfalso
          have hlen := congrArg List.length heq
          simp only [List.length_singleton, List.length_append] at hlen
          have hne := natToDigitsAux_ne_nil a (m / 10) (by omega)
          have : (natToDigitsAux a (m / 10)).length ≠ 0 := by
            intro hz
            exact hne (List.length_eq_zero.mp hz)
          omega
        · simp only [if_neg h1, if_neg h2] at heq
          have hlen : (natToDigitsAux a (m / 10)).length
              = (natToDigitsAux b (n / 10)).length := by
            have := congrArg List.length heq
            simp only [List.length_append, List.length_singleton] at this
            omega
          obtain ⟨hpre, hlast⟩ := List.append_inj heq hlen
          have hmod : m % 10 = n % 10 := by
            apply decDigit_inj _ (Nat.mod_lt _ (by omega)) _ (Nat.mod_lt _ (by omega))
            exact List.singleton_injective hlast ▸ rfl
          have hmd : m / 10 < m := Nat.div_lt_self (by omega) (by omega)
          have hnd : n / 10 < n := Nat.div_lt_self (by omega) (by omega)
          have hdiv : m / 10 = n / 10 := ih (m / 10) (n / 10) b (by omega) (by omega) hpre
          omega

theorem natStr_inj {m n : Nat} (h : natStr m = natStr n) : m = n := by
  have hd : natToDigitsAux (m + 1) m = natToDigitsAux (n + 1) n := by
    have := congrArg String.data h
    simpa [natStr] using this
  exact natToDigitsAux_inj (m + 1) m n (n + 1) (by omega) (by omega) hd

theorem string_data_append (s t : String) : (s ++ t).data = s.data ++ t.data := by
  cases s
  cases t
  rfl

theorem candName_inj {base : String} {i j : Nat}
    (h : candName base i = candName base j) : i = j := by
  have hd := congrArg String.data h
  simp only [candName, string_data_append, List.append_assoc] at hd
  have h1 := List.append_cancel_left hd
  have h2 := List.append_cancel_left h1
  have h3 := List.append_cancel_right h2
  exact natStr_inj (String.ext h3)

theorem candName_ne_base (base : String) (k : Nat) : candName base k ≠ base := by
  intro h
  have hd := congrArg (fun s => s.data.length) h
  simp only [candName, string_data_append, List.length_append] at hd
  have hne := natToDigitsAux_ne_nil (k + 1) k (by omega)
  have : (natStr k).data.length ≠ 0 := by
    intro hz
    exact hne (List.length_eq_zero.mp (by simpa [natStr] using hz))
  simp only [natStr] at this
  simp only [natStr] at hd
  have h2 : (" (" : String).data.length = 2 := by decide
  have h3 : (")" : String).data.length = 1 := by decide
  omega

theorem probe_not_mem (used : List String) (base : String) :
    ∀ fuel counter : Nat, (∃ i, i < fuel ∧ candName base (counter + i) ∉ used) →
    probeSuffix used base fuel counter ∉ used := by
  intro fuel
  induction fuel with
  | zero =>
    intro counter ⟨i, hi, _⟩
    omega
  | succ f ih =>
    intro counter ⟨i, hi, hfree⟩
    simp only [probeSuffix]
    by_cases hmem : candName base counter ∈ used
    · rw [if_pos hmem]
      apply ih
      have hi0 : i ≠ 0 := by
        intro h0
        rw [h0] at hfree
        simp at hfree
        exact hfree hmem
      refine ⟨i - 1, by omega, ?_⟩
      have : counter + 1 + (i - 1) = counter + i := by omega
      rw [this]
      exact hfree
    · rw [if_neg hmem]
      exact hmem

theorem probe_exists (used : List String) (base : String) :
    ∃ i, i < used.length + 1 ∧ candName base (1 + i) ∉ used := by
  by_contra hcon
  push_neg at hcon
  have hsub : (Finset.range (used.length + 1)).image (fun i => candName base (1 + i))
      ⊆ used.toFinset := by
    intro x hx
    simp only [Finset.mem_image, Finset.mem_range] at hx
    obtain ⟨i, hi, rfl⟩ := hx
    exact List.mem_toFinset.mpr (hcon i hi)
  have hcard : ((Finset.range (used.length + 1)).image
      (fun i => candName base (1 + i))).card = used.length + 1 := by
    rw [Finset.card_image_of_injOn, Finset.card_range]
    intro a _ b _ hab
    have := candName_inj hab
    omega
  have hle := Finset.card_le_card hsub
  rw [hcard] at hle
  have := used.toFinset_card_le
  omega

theorem probe_first (used : List String) (base : String) :
    ∀ fuel counter m : Nat, m < fuel →
    (∀ i, i < m → candName base (counter + i) ∈ used) →
    candName base (counter + m) ∉ used →
    probeSuffix used base fuel counter = candName base (counter + m) := by
  intro fuel
  induction fuel with
  | zero => intro counter m hm; omega
  | succ f ih =>
    intro counter m hm hall hfree
    simp only [probeSuffix]
    cases m with
    | zero =>
      simp only [Nat.add_zero] at hfree
      rw [if_neg hfree]
      simp
    | succ m1 =>
      have hmem : candName base counter ∈ used := by
        have := hall 0 (by omega)
        simpa using this
      rw [if_pos hmem]
      have := ih (counter + 1) m1 (by omega)
        (fun i hi => by
          have := hall (i + 1) (by omega)
          have harr : counter + (i + 1) = counter + 1 + i := by omega
          rwa [harr] at this)
        (by
          have harr : counter + (m1 + 1) = counter + 1 + m1 := by omega
          rwa [harr] at hfree)
      rw [this]
      congr 1
      omega

theorem al_append_some {α : Type} {l : List (String × α)} {k : String} {v : α}
    (h : alookup l k = some v) (l2 : List (String × α)) :
    alookup (l ++ l2) k = some v := by
  induction l with
  | nil => simp [alookup] at h
  | cons hd tl ih =>
    rcases hd with ⟨k1, v1⟩
    simp only [alookup, List.cons_append] at h ⊢
    by_cases hk : k1 = k
    · rwa [if_pos hk] at h ⊢
    · rw [if_neg hk] at h ⊢
      exact ih h

theorem al_append_none {α : Type} {l : List (String × α)} {k : String}
    (h : alookup l k = none) (l2 : List (String × α)) :
    alookup (l ++ l2) k = alookup l2 k := by
  induction l with
  | nil => simp [alookup]
  | cons hd tl ih =>
    rcases hd with ⟨k1, v1⟩
    simp only [alookup, List.cons_append] at h ⊢
    by_cases hk : k1 = k
    · rw [if_pos hk] at h; exact absurd h (by simp)
    · rw [if_neg hk] at h ⊢
      exact ih h

theorem al_mem {α : Type} {l : List (String × α)} {k : String} {v : α}
    (h : alookup l k = some v) : (k, v) ∈ l := by
  induction l with
  | nil => simp [alookup] at h
  | cons hd tl ih =>
    rcases hd with ⟨k1, v1⟩
    simp only [alookup] at h
    by_cases hk : k1 = k
    · rw [if_pos hk] at h
      simp only [List.mem_cons]
      left
      injection h with h
      rw [hk, h]
    · rw [if_neg hk] at h
      exact List.mem_cons_of_mem _ (ih h)

theorem di_lookup_self {α : Type} (m : List (String × α)) (k : String) (v : α) :
    alookup (dictInsert m k v) k = some v := by
  induction m with
  | nil => simp [dictInsert, alookup]
  | cons hd tl ih =>
    rcases hd with ⟨k1, v1⟩
    simp only [dictInsert]
    by_cases hk : k1 = k
    · rw [if_pos hk]
      simp [alookup]
    · rw [if_neg hk]
      simp only [alookup, if_neg hk]
      exact ih

theorem di_lookup_other {α : Type} (m : List (String × α)) {k k2 : String} (v : α)
    (hne : k2 ≠ k) : alookup (dictInsert m k v) k2 = alookup m k2 := by
  induction m with
  | nil =>
    simp only [dictInsert, alookup]
    rw [if_neg (fun h : k = k2 => hne h.symm)]
  | cons hd tl ih =>
    rcases hd with ⟨k1, v1⟩
    simp only [dictInsert]
    by_cases hk : k1 = k
    · rw [if_pos hk]
      simp only [alookup]
      rw [if_neg (fun h : k = k2 => hne h.symm), if_neg (fun h : k1 = k2 => hne (h.symm.trans hk))]
    · rw [if_neg hk]
      simp only [alookup]
      by_cases h2 : k1 = k2
      · rw [if_pos h2, if_pos h2]
      · rw [if_neg h2, if_neg h2]
        exact ih

theorem di_mem {α : Type} {m : List (String × α)} {k : String} {v : α} {p : String × α}
    (h : p ∈ dictInsert m k v) : p = (k, v) ∨ p ∈ m := by
  induction m with
  | nil => simpa [dictInsert] using h
  | cons hd tl ih =>
    rcases hd with ⟨k1, v1⟩
    simp only [dictInsert] at h
    by_cases hk : k1 = k
    · rw [if_pos hk] at h
      rcases List.mem_cons.mp h with h | h
      · exact Or.inl h
      · exact Or.inr (List.mem_cons_of_mem _ h)
    · rw [if_neg hk] at h
      rcases List.mem_cons.mp h with h | h
      · exact Or.inr (List.mem_cons.mpr (Or.inl h))
      · rcases ih h with h | h
        · exact Or.inl h
        · exact Or.inr (List.mem_cons_of_mem _ h)

theorem getUnique_cached {env : SanEnv} {r : Resolver} {s v : String}
    (h : alookup r.name_mapping s = some v) :
    getUniqueName env r s = (v, r) := by
  simp only [getUniqueName, h]

theorem getUnique_fresh (env : SanEnv) (r : Resolver) (s : String)
    (h : alookup r.name_mapping s = none) :
    ∃ v, getUniqueName env r s
        = (v, ⟨r.name_mapping ++ [(s, v)], r.used_names ++ [v]⟩)
      ∧ v ∉ r.used_names := by
  simp only [getUniqueName, h]
  by_cases hmem : pyBase env s ∈ r.used_names
  · rw [if_pos hmem]
    refine ⟨probeSuffix r.used_names (pyBase env s) (r.used_names.length + 1) 1, rfl, ?_⟩
    apply probe_not_mem
    obtain ⟨i, hi, hfree⟩ := probe_exists r.used_names (pyBase env s)
    exact ⟨i, hi, hfree⟩
  · rw [if_neg hmem]
    exact ⟨pyBase env s, rfl, hmem⟩

theorem getUnique_lookup_self {env : SanEnv} {r : Resolver} {s v : String}
    {r2 : Resolver} (h : getUniqueName env r s = (v, r2)) :
    alookup r2.name_mapping s = some v := by
  cases hc : alookup r.name_mapping s with
  | some c =>
    rw [getUnique_cached hc] at h
    injection h with h1 h2
    rw [← h2, ← h1]
    exact hc
  | none =>
    obtain ⟨w, hw, _⟩ := getUnique_fresh env r s hc
    rw [hw] at h
    injection h with h1 h2
    rw [← h2, ← h1]
    simp only []
    rw [al_append_none hc]
    simp [alookup]

theorem getUnique_mono {env : SanEnv} {r : Resolver} {s v : String}
    {r2 : Resolver} (h : getUniqueName env r s = (v, r2)) :
    resLe r r2 ∧ ∀ u ∈ r.used_names, u ∈ r2.used_names := by
  cases hc : alookup r.name_mapping s with
  | some c =>
    rw [getUnique_cached hc] at h
    injection h with h1 h2
    rw [← h2]
    exact ⟨fun o w hw => hw, fun u hu => hu⟩
  | none =>
    obtain ⟨w, hw, _⟩ := getUnique_fresh env r s hc
    rw [hw] at h
    injection h with h1 h2
    rw [← h2]
    constructor
    · intro o w2 hw2
      exact al_append_some hw2 _
    · intro u hu
      simp only [List.mem_append]
      exact Or.inl hu

theorem WFres_empty : WFres Resolver.empty := by
  constructor
  · intro p hp
    simp [Resolver.empty] at hp
  · intro p hp
    simp [Resolver.empty] at hp

theorem getUnique_wf {env : SanEnv} {r : Resolver} {s v : String}
    {r2 : Resolver} (hwf : WFres r) (h : getUniqueName env r s = (v, r2)) :
    WFres r2 := by
  cases hc : alookup r.name_mapping s with
  | some c =>
    rw [getUnique_cached hc] at h
    injection h with h1 h2
    rw [← h2]
    exact hwf
  | none =>
    obtain ⟨w, hw, hfree⟩ := getUnique_fresh env r s hc
    rw [hw] at h
    injection h with h1 h2
    rw [← h2]
    obtain ⟨hused, hinj⟩ := hwf
    constructor
    · intro p hp
      simp only [List.mem_append, List.mem_singleton] at hp ⊢
      rcases hp with hp | hp
      · exact Or.inl (hused p hp)
      · rw [hp]
        exact Or.inr (by simp)
    · intro p hp q hq hne
      simp only [List.mem_append, List.mem_singleton] at hp hq
      rcases hp with hp | hp <;> rcases hq with hq | hq
      · exact hinj p hp q hq hne
      · intro hv
        rw [hq] at hv
        have hv2 : p.2 = w := hv
        exact hfree (hv2 ▸ hused p hp)
      · intro hv
        rw [hp] at hv
        have hv2 : q.2 = w := hv.symm
        exact hfree (hv2 ▸ hused q hq)
      · rw [hp, hq] at hne
        exact absurd rfl hne

theorem al_zip_none {ps vs : List String} {k : String} (h : k ∉ ps) :
    alookup (ps.zip vs) k = none := by
  induction ps generalizing vs with
  | nil => simp [alookup]
  | cons p pt ih =>
    cases vs with
    | nil => simp [alookup]
    | cons v vt =>
      simp only [List.zip_cons_cons, alookup]
      rw [if_neg (fun hp : p = k => h (by rw [hp]; exact List.mem_cons_self _ _))]
      exact ih (fun hm => h (List.mem_cons_of_mem _ hm))

theorem runNames_mono (env : SanEnv) :
    ∀ (ts : List String) (r : Resolver) (o w : String),
    alookup r.name_mapping o = some w →
    alookup (runNames env r ts).2.name_mapping o = some w := by
  intro ts
  induction ts with
  | nil =>
    intro r o w h
    simpa [runNames] using h
  | cons t tt ih =>
    intro r o w h
    simp only [runNames]
    apply ih
    have := (@getUnique_mono env r t (getUniqueName env r t).1
      (getUniqueName env r t).2 rfl).1
    exact this o w h

/-- C5: calling get_unique_name again on the same instance with an input
seen before, with any other calls in between, returns the string of the
first call and leaves the resolver state (name_mapping and used_names)
unchanged. -/
theorem c5_repeat_idempotent (env : SanEnv) (r : Resolver) (s : String)
    (ts : List String) :
    getUniqueName env (runNames env (getUniqueName env r s).2 ts).2 s
      = ((getUniqueName env r s).1, (runNames env (getUniqueName env r s).2 ts).2) := by
  apply getUnique_cached
  apply runNames_mono
  exact @getUnique_lookup_self env r s (getUniqueName env r s).1
    (getUniqueName env r s).2 rfl

theorem c4_aux (env : SanEnv) (b : String) :
    ∀ (ns processed : List String),
    (∀ nm ∈ ns, pyBase env nm = b) →
    (∀ nm ∈ ns, nm ∉ processed) →
    ns.Nodup →
    (runNames env
        ⟨processed.zip ((List.range processed.length).map (expectedName b)),
         (List.range processed.length).map (expectedName b)⟩ ns).1
      = (List.range' processed.length ns.length).map (expectedName b) := by
  intro ns
  induction ns with
  | nil =>
    intro processed hbase hfreshn hnodup
    simp [runNames]
  | cons n nt ih =>
    intro processed hbase hfreshn hnodup
    have hlook : alookup (processed.zip
        ((List.range processed.length).map (expectedName b))) n = none :=
      al_zip_none (hfreshn n (List.mem_cons_self _ _))
    have hb : pyBase env n = b := hbase n (List.mem_cons_self _ _)
    have hstep : getUniqueName env
        ⟨processed.zip ((List.range processed.length).map (expectedName b)),
         (List.range processed.length).map (expectedName b)⟩ n
        = (expectedName b processed.length,
           ⟨(processed ++ [n]).zip
              ((List.range (processed.length + 1)).map (expectedName b)),
            (List.range (processed.length + 1)).map (expectedName b)⟩) := by
      have hzip : (processed ++ [n]).zip
          ((List.range (processed.length + 1)).map (expectedName b))
          = processed.zip ((List.range processed.length).map (expectedName b))
            ++ [(n, expectedName b processed.length)] := by
        rw [List.range_succ, List.map_append]
        rw [List.zip_append (by simp)]
        simp
      have hused : (List.range (processed.length + 1)).map (expectedName b)
          = (List.range processed.length).map (expectedName b)
            ++ [expectedName b processed.length] := by
        rw [List.range_succ, List.map_append]
        simp
      simp only [getUniqueName, hlook, hb]
      cases hp : processed.length with
      | zero =>
        have hpe : processed = [] := List.length_eq_zero.mp hp
        subst hpe
        rw [if_neg (by simp)]
        simp [expectedName, List.range_succ]
      | succ m =>
        rw [hp] at hzip hused
        have hmem : b ∈ (List.range (m + 1)).map (expectedName b) := by
          simp only [List.mem_map]
          exact ⟨0, by simp, by simp [expectedName]⟩
        rw [if_pos hmem]
        have hlen : ((List.range (m + 1)).map (expectedName b)).length = m + 1 := by
          simp
        have hprobe : probeSuffix ((List.range (m + 1)).map (expectedName b))
            b (((List.range (m + 1)).map (expectedName b)).length + 1) 1
            = candName b (m + 1) := by
          rw [hlen]
          have := probe_first ((List.range (m + 1)).map (expectedName b))
            b (m + 2) 1 m (by omega)
            (fun i hi => by
              simp only [List.mem_map, List.mem_range]
              refine ⟨i + 1, by omega, ?_⟩
              simp only [expectedName, if_neg (by omega : ¬ i + 1 = 0)]
              congr 1
              omega)
            (by
              intro hmem2
              simp only [List.mem_map, List.mem_range] at hmem2
              obtain ⟨j, hj, hje⟩ := hmem2
              by_cases hj0 : j = 0
              · rw [hj0] at hje
                simp only [expectedName, if_pos rfl] at hje
                exact candName_ne_base b (1 + m) hje.symm
              · simp only [expectedName, if_neg hj0] at hje
                have := candName_inj hje
                omega)
          rw [this]
          congr 1
          omega
        rw [hprobe]
        have hexp : expectedName b (m + 1) = candName b (m + 1) := by
          simp only [expectedName, if_neg (by omega : ¬ m + 1 = 0)]
        rw [hexp] at hzip
        rw [hzip, hused, hexp]
    simp only [runNames, hstep]
    have := ih (processed ++ [n])
      (fun nm hm => hbase nm (List.mem_cons_of_mem _ hm))
      (fun nm hm => by
        simp only [List.mem_append, List.mem_singleton]
        rintro (hc | hc)
        · exact hfreshn nm (List.mem_cons_of_mem _ hm) hc
        · rw [hc] at hm
          exact (List.nodup_cons.mp hnodup).1 hm)
      (List.nodup_cons.mp hnodup).2
    simp only [List.length_append, List.length_singleton] at this
    rw [this]
    have hr : List.range' processed.length (nt.length + 1)
        = processed.length :: List.range' (processed.length + 1) nt.length := by
      simp [List.range']
    simp only [List.length_cons]
    rw [hr]
    simp

/-- C4: on a fresh resolver instance, distinct original names that all
sanitize (after the empty-name fallback of lines 60-62) to one base
string receive exactly base, "base (1)", "base (2)", ... in first-seen
order, with no gaps and no repeats. -/
theorem c4_suffix_sequence (env : SanEnv) (b : String) (names : List String)
    (hlen : 2 ≤ names.length) (hnodup : names.Nodup)
    (hbase : ∀ nm ∈ names, pyBase env nm = b) :
    (runNames env Resolver.empty names).1
      = (List.range names.length).map (expectedName b) := by
  have := c4_aux env b names [] hbase (by simp) hnodup
  simp only [List.length_nil] at this
  have hemp : (List.range 0).map (expectedName b) = [] := by simp
  rw [hemp] at this
  have hzero : List.range' 0 names.length = List.range names.length := by
    rw [List.range_eq_range']
  rw [hzero] at this
  simpa [Resolver.empty] using this

/-- Witness for C4 at a concrete environment and names. -/
theorem c4_suffix_sequence_witness :
    (runNames ⟨fun _ => ("T"), fun _ => 0⟩ Resolver.empty
        [("a"), ("b"), ("c")]).1
      = [("T"), ("T (1)"), ("T (2)")] := by
  have := c4_suffix_sequence ⟨fun _ => ("T"), fun _ => 0⟩ ("T")
    [("a"), ("b"), ("c")] (by decide) (by decide) (by decide)
  rw [this]
  decide

theorem calc_eq_visited (env : SanEnv) (byId : List (String × Entry))
    (pid : String) (visited : List String) (st : List (String × Resolver))
    (hv : pid ∈ visited) :
    calculatePathInfo env byId pid visited st = (([], ""), st) := by
  rw [calculatePathInfo]
  simp only [if_pos hv]

theorem calc_eq_missing (env : SanEnv) (byId : List (String × Entry))
    (pid : String) (visited : List String) (st : List (String × Resolver))
    (hv : pid ∉ visited) (hl : alookup byId pid = none) :
    calculatePathInfo env byId pid visited st = (([], ""), st) := by
  rw [calculatePathInfo]
  simp only [if_neg hv]
  split
  · rfl
  · rename_i e heq
    rw [hl] at heq
    cases heq

theorem calc_eq_root (env : SanEnv) (byId : List (String × Entry))
    (pid : String) (visited : List String) (st : List (String × Resolver))
    (e : Entry) (hv : pid ∉ visited) (hl : alookup byId pid = some e)
    (hroot : e.parent_id = ("root")) :
    calculatePathInfo env byId pid visited st =
      (([(getUniqueName env ((alookup st ("root")).getD Resolver.empty)
            e.original_name).1], "root"),
       dictInsert st ("root")
         (getUniqueName env ((alookup st ("root")).getD Resolver.empty)
            e.original_name).2) := by
  rw [calculatePathInfo]
  simp only [if_neg hv]
  split
  · rename_i heq
    rw [hl] at heq
    cases heq
  · rename_i e2 heq
    rw [hl] at heq
    injection heq with heq
    subst heq
    rw [if_pos hroot]

theorem calc_eq_parent (env : SanEnv) (byId : List (String × Entry))
    (pid : String) (visited : List String) (st : List (String × Resolver))
    (e : Entry) (hv : pid ∉ visited) (hl : alookup byId pid = some e)
    (hroot : e.parent_id ≠ ("root")) :
    calculatePathInfo env byId pid visited st =
      ((((calculatePathInfo env byId e.parent_id (pid :: visited) st).1.1
           ++ [(getUniqueName env
                 ((alookup (calculatePathInfo env byId e.parent_id (pid :: visited) st).2
                     (String.intercalate ("/")
                       (calculatePathInfo env byId e.parent_id (pid :: visited) st).1.1)).getD
                   Resolver.empty)
                 e.original_name).1]),
        String.intercalate ("/")
          (calculatePathInfo env byId e.parent_id (pid :: visited) st).1.1),
       dictInsert (calculatePathInfo env byId e.parent_id (pid :: visited) st).2
         (String.intercalate ("/")
           (calculatePathInfo env byId e.parent_id (pid :: visited) st).1.1)
         (getUniqueName env
           ((alookup (calculatePathInfo env byId e.parent_id (pid :: visited) st).2
               (String.intercalate ("/")
                 (calculatePathInfo env byId e.parent_id (pid :: visited) st).1.1)).getD
             Resolver.empty)
           e.original_name).2) := by
  rw [calculatePathInfo]
  simp only [if_neg hv]
  split
  · rename_i heq
    rw [hl] at heq
    cases heq
  · rename_i e2 heq
    rw [hl] at heq
    injection heq with heq
    subst heq
    rw [if_neg hroot]

theorem resLe_refl (r : Resolver) : resLe r r :=
  fun _ _ h => h

theorem resLe_trans {a b c : Resolver} (h1 : resLe a b) (h2 : resLe b c) :
    resLe a c :=
  fun o w h => h2 o w (h1 o w h)

theorem stLe_refl (st : List (String × Resolver)) : stLe st st :=
  fun k r h => ⟨r, h, resLe_refl r⟩

theorem stLe_trans {a b c : List (String × Resolver)} (h1 : stLe a b)
    (h2 : stLe b c) : stLe a c := by
  intro k r h
  obtain ⟨r2, hr2, hle2⟩ := h1 k r h
  obtain ⟨r3, hr3, hle3⟩ := h2 k r2 hr2
  exact ⟨r3, hr3, resLe_trans hle2 hle3⟩

theorem WFmap_nil : WFmap [] := by
  intro p hp
  simp at hp

theorem wf_of_lookup {st : List (String × Resolver)} {k : String} {r : Resolver}
    (hwf : WFmap st) (h : alookup st k = some r) : WFres r :=
  hwf (k, r) (al_mem h)

theorem wf_of_getD {st : List (String × Resolver)} {k : String}
    (hwf : WFmap st) : WFres ((alookup st k).getD Resolver.empty) := by
  cases h : alookup st k with
  | none => exact WFres_empty
  | some r => exact wf_of_lookup hwf h

theorem di_wfmap {st : List (String × Resolver)} {k : String} {r : Resolver}
    (hwf : WFmap st) (hr : WFres r) : WFmap (dictInsert st k r) := by
  intro p hp
  rcases di_mem hp with h | h
  · rw [h]
    exact hr
  · exact hwf p h

theorem stLe_update {st : List (String × Resolver)} {key : String} {r2 : Resolver}
    (h : resLe ((alookup st key).getD Resolver.empty) r2) :
    stLe st (dictInsert st key r2) := by
  intro k r hk
  by_cases hkey : k = key
  · subst hkey
    refine ⟨r2, di_lookup_self st k r2, ?_⟩
    rw [hk] at h
    exact h
  · exact ⟨r, by rw [di_lookup_other st r2 hkey]; exact hk, resLe_refl r⟩

theorem getUnique_resLe (env : SanEnv) (r : Resolver) (s : String) :
    resLe r (getUniqueName env r s).2 :=
  (@getUnique_mono env r s (getUniqueName env r s).1
    (getUniqueName env r s).2 rfl).1

theorem getUnique_wf2 (env : SanEnv) {r : Resolver} (s : String) (hwf : WFres r) :
    WFres (getUniqueName env r s).2 :=
  @getUnique_wf env r s (getUniqueName env r s).1
    (getUniqueName env r s).2 hwf rfl

theorem getUnique_self2 (env : SanEnv) (r : Resolver) (s : String) :
    alookup (getUniqueName env r s).2.name_mapping s
      = some (getUniqueName env r s).1 :=
  @getUnique_lookup_self env r s (getUniqueName env r s).1
    (getUniqueName env r s).2 rfl

theorem calc_spec_aux (env : SanEnv) (byId : List (String × Entry)) (n : Nat) :
    ∀ (pid : String) (visited : List String) (st : List (String × Resolver)),
    pathMeasure byId visited ≤ n → WFmap st →
    WFmap (calculatePathInfo env byId pid visited st).2 ∧
    stLe st (calculatePathInfo env byId pid visited st).2 ∧
    (∀ e, pid ∉ visited → alookup byId pid = some e →
      ∃ pcomps name scope res,
        (calculatePathInfo env byId pid visited st).1.1 = pcomps ++ [name] ∧
        alookup (calculatePathInfo env byId pid visited st).2 scope = some res ∧
        alookup res.name_mapping e.original_name = some name ∧
        ((e.parent_id = ("root") ∧ pcomps = [] ∧ scope = ("root")) ∨
         (e.parent_id ≠ ("root") ∧
           scope = String.intercalate ("/") pcomps))) := by
  induction n using Nat.strong_induction_on with
  | _ n ih =>
    intro pid visited st hms hwf
    by_cases hv : pid ∈ visited
    · rw [calc_eq_visited env byId pid visited st hv]
      exact ⟨hwf, stLe_refl st, fun e hnv _ => absurd hv hnv⟩
    · cases hl : alookup byId pid with
      | none =>
        rw [calc_eq_missing env byId pid visited st hv hl]
        refine ⟨hwf, stLe_refl st, fun e _ hl2 => ?_⟩
        cases hl2
      | some e =>
        by_cases hroot : e.parent_id = ("root")
        · rw [calc_eq_root env byId pid visited st e hv hl hroot]
          set r0 := (alookup st ("root")).getD Resolver.empty with hr0
          have hwr0 : WFres r0 := wf_of_getD hwf
          have hwr1 : WFres (getUniqueName env r0 e.original_name).2 :=
            getUnique_wf2 env e.original_name hwr0
          refine ⟨di_wfmap hwf hwr1,
            stLe_update (getUnique_resLe env r0 e.original_name), ?_⟩
          intro e2 _ hl2
          injection hl2 with hl2
          subst hl2
          refine ⟨[], (getUniqueName env r0 e.original_name).1, ("root"),
            (getUniqueName env r0 e.original_name).2, by simp, ?_, ?_, ?_⟩
          · exact di_lookup_self st ("root") _
          · exact getUnique_self2 env r0 e.original_name
          · exact Or.inl ⟨hroot, rfl, rfl⟩
        · have hdec : pathMeasure byId (pid :: visited) < pathMeasure byId visited := by
            have hk : pid ∈ byId.map Prod.fst := by
              have := al_mem hl
              exact List.mem_map.mpr ⟨(pid, e), this, rfl⟩
            unfold pathMeasure
            have hset : (pid :: visited).toFinset = insert pid visited.toFinset := by
              simp
            rw [hset]
            have hdiff : (byId.map Prod.fst).toFinset \ insert pid visited.toFinset
                = ((byId.map Prod.fst).toFinset \ visited.toFinset).erase pid := by
              ext x
              simp only [Finset.mem_sdiff, Finset.mem_insert, Finset.mem_erase]
              tauto
            rw [hdiff]
            apply Finset.card_erase_lt_of_mem
            simp only [Finset.mem_sdiff, List.mem_toFinset]
            exact ⟨hk, hv⟩
          have hrec := ih (pathMeasure byId (pid :: visited))
            (lt_of_lt_of_le hdec hms) e.parent_id (pid :: visited) st
            (le_refl _) hwf
          obtain ⟨hwf1, hle1, _⟩ := hrec
          rw [calc_eq_parent env byId pid visited st e hv hl hroot]
          set cr := calculatePathInfo env byId e.parent_id (pid :: visited) st
            with hcr
          set pp := String.intercalate ("/") cr.1.1 with hpp
          set r0 := (alookup cr.2 pp).getD Resolver.empty with hr0
          have hwr0 : WFres r0 := wf_of_getD hwf1
          have hwr1 : WFres (getUniqueName env r0 e.original_name).2 :=
            getUnique_wf2 env e.original_name hwr0
          refine ⟨di_wfmap hwf1 hwr1,
            stLe_trans hle1 (stLe_update (getUnique_resLe env r0 e.original_name)),
            ?_⟩
          intro e2 _ hl2
          injection hl2 with hl2
          subst hl2
          refine ⟨cr.1.1, (getUniqueName env r0 e.original_name).1, pp,
            (getUniqueName env r0 e.original_name).2, rfl, ?_, ?_, ?_⟩
          · exact di_lookup_self cr.2 pp _
          · exact getUnique_self2 env r0 e.original_name
          · exact Or.inr ⟨hroot, rfl⟩

theorem calc_spec (env : SanEnv) (byId : List (String × Entry))
    (pid : String) (visited : List String) (st : List (String × Resolver))
    (hwf : WFmap st) :
    WFmap (calculatePathInfo env byId pid visited st).2 ∧
    stLe st (calculatePathInfo env byId pid visited st).2 ∧
    (∀ e, pid ∉ visited → alookup byId pid = some e →
      ∃ pcomps name scope res,
        (calculatePathInfo env byId pid visited st).1.1 = pcomps ++ [name] ∧
        alookup (calculatePathInfo env byId pid visited st).2 scope = some res ∧
        alookup res.name_mapping e.original_name = some name ∧
        ((e.parent_id = ("root") ∧ pcomps = [] ∧ scope = ("root")) ∨
         (e.parent_id ≠ ("root") ∧
           scope = String.intercalate ("/") pcomps))) :=
  calc_spec_aux env byId (pathMeasure byId visited) pid visited st (le_refl _) hwf

theorem getLastD_concat2 {α : Type} (l : List α) (a b : α) :
    (l ++ [a]).getLastD b = a := by
  induction l with
  | nil => rfl
  | cons x xs ih =>
    cases xs with
    | nil => rfl
    | cons y ys => simpa using ih

theorem di_keys_mem {α : Type} {m : List (String × α)} {k x : String} {v : α}
    (h : x ∈ (dictInsert m k v).map Prod.fst) :
    x = k ∨ x ∈ m.map Prod.fst := by
  obtain ⟨p, hp, hx⟩ := List.mem_map.mp h
  rcases di_mem hp with h2 | h2
  · left
    rw [h2] at hx
    exact hx.symm
  · right
    exact List.mem_map.mpr ⟨p, h2, hx⟩

theorem di_keys_nodup {α : Type} {m : List (String × α)} (k : String) (v : α)
    (h : (m.map Prod.fst).Nodup) :
    ((dictInsert m k v).map Prod.fst).Nodup := by
  induction m with
  | nil => simp [dictInsert]
  | cons hd tl ih =>
    rcases hd with ⟨k1, v1⟩
    simp only [List.map_cons, List.nodup_cons] at h
    obtain ⟨hk1, htl⟩ := h
    simp only [dictInsert]
    by_cases hk : k1 = k
    · rw [if_pos hk]
      simp only [List.map_cons, List.nodup_cons]
      exact ⟨by rw [← hk]; exact hk1, htl⟩
    · rw [if_neg hk]
      simp only [List.map_cons, List.nodup_cons]
      refine ⟨?_, ih htl⟩
      intro hmem
      rcases di_keys_mem hmem with h2 | h2
      · exact hk h2
      · exact hk1 h2

theorem buildById_keys_nodup (records : List RBPlaylist) :
    ((buildById records).map Prod.fst).Nodup := by
  unfold buildById
  generalize records.filter (fun r => !r.rb_local_deleted) = rs
  have : ∀ (rs : List RBPlaylist) (acc : List (String × Entry)),
      (acc.map Prod.fst).Nodup →
      ((rs.foldl (fun m r => dictInsert m r.ID (mkEntry r)) acc).map Prod.fst).Nodup := by
    intro rs
    induction rs with
    | nil => intro acc h; simpa using h
    | cons r rt ih =>
      intro acc h
      simp only [List.foldl_cons]
      exact ih _ (di_keys_nodup _ _ h)
  exact this rs [] (by simp)

theorem alookup_of_mem_nodup {α : Type} {m : List (String × α)} {k : String}
    {v : α} (hnd : (m.map Prod.fst).Nodup) (h : (k, v) ∈ m) :
    alookup m k = some v := by
  induction m with
  | nil => simp at h
  | cons hd tl ih =>
    rcases hd with ⟨k1, v1⟩
    simp only [List.map_cons, List.nodup_cons] at hnd
    obtain ⟨hk1, htl⟩ := hnd
    rcases List.mem_cons.mp h with h2 | h2
    · injection h2 with ha hb
      simp only [alookup]
      rw [if_pos ha.symm]
      rw [hb]
    · simp only [alookup]
      have hne : k1 ≠ k := by
        intro hc
        apply hk1
        rw [hc]
        exact List.mem_map.mpr ⟨(k, v), h2, rfl⟩
      rw [if_neg hne]
      exact ih htl h2

theorem loop_spec (env : SanEnv) (byId : List (String × Entry))
    (hnd : (byId.map Prod.fst).Nodup) :
    ∀ (rem : List (String × Entry)) (st : List (String × Resolver)),
    WFmap st → (∀ pe ∈ rem, pe ∈ byId) →
    WFmap (extractLoop env byId rem st).2 ∧
    stLe st (extractLoop env byId rem st).2 ∧
    (extractLoop env byId rem st).1.length
      = (rem.filter (fun pe => includeEntry pe.2)).length ∧
    (∀ (k : Nat) (p : Playlist) (pe : String × Entry),
      (extractLoop env byId rem st).1[k]? = some p →
      (rem.filter (fun pe => includeEntry pe.2))[k]? = some pe →
      p.tracks = pe.2.tracks ∧
      ∃ scope res,
        alookup (extractLoop env byId rem st).2 scope = some res ∧
        alookup res.name_mapping pe.2.original_name = some p.name ∧
        (p.path ≠ ("") → scope = p.path)) := by
  intro rem
  induction rem with
  | nil =>
    intro st hwf hsub
    refine ⟨hwf, stLe_refl st, by simp [extractLoop], ?_⟩
    intro k p pe hp hpe
    simp [extractLoop] at hp
  | cons hd rest ih =>
    intro st hwf hsub
    rcases hd with ⟨pid, e⟩
    by_cases hinc : includeEntry e
    · have hmem : (pid, e) ∈ byId := hsub _ (List.mem_cons_self _ _)
      have hlook : alookup byId pid = some e := alookup_of_mem_nodup hnd hmem
      obtain ⟨hwf1, hle1, hthird⟩ := calc_spec env byId pid [] st hwf
      obtain ⟨pcomps, name, scope, res, hcomps, hres, hmapn, hcase⟩ :=
        hthird e (by simp) hlook
      have hloop : extractLoop env byId ((pid, e) :: rest) st
          = (⟨(calculatePathInfo env byId pid [] st).1.1.getLastD (""),
              (if (calculatePathInfo env byId pid [] st).1.1.length > 1 then
                String.intercalate ("/")
                  (calculatePathInfo env byId pid [] st).1.1.dropLast
              else ""), e.tracks⟩
              :: (extractLoop env byId rest (calculatePathInfo env byId pid [] st).2).1,
             (extractLoop env byId rest (calculatePathInfo env byId pid [] st).2).2) := by
        simp only [extractLoop, if_pos hinc]
      obtain ⟨hwfF, hleF, hlenF, hptF⟩ := ih (calculatePathInfo env byId pid [] st).2
        hwf1 (fun pe hpe => hsub pe (List.mem_cons_of_mem _ hpe))
      have hfilter : ((pid, e) :: rest).filter (fun pe => includeEntry pe.2)
          = (pid, e) :: rest.filter (fun pe => includeEntry pe.2) := by
        simp [List.filter_cons, hinc]
      have hname : (calculatePathInfo env byId pid [] st).1.1.getLastD ("") = name := by
        rw [hcomps]
        exact getLastD_concat2 _ _ _
      have hpath : (if (calculatePathInfo env byId pid [] st).1.1.length > 1 then
          String.intercalate ("/") (calculatePathInfo env byId pid [] st).1.1.dropLast
          else "")
          = (if pcomps = [] then "" else String.intercalate ("/") pcomps) := by
        rw [hcomps]
        by_cases hpc : pcomps = []
        · rw [hpc]
          simp
        · rw [if_pos (by
            simp only [List.length_append, List.length_singleton]
            have : pcomps.length ≠ 0 := fun hz => hpc (List.length_eq_zero.mp hz)
            omega)]
          rw [if_neg hpc]
          congr 1
          simp
      refine ⟨by rw [hloop]; exact hwfF,
        by rw [hloop]; exact stLe_trans hle1 hleF, ?_, ?_⟩
      · rw [hloop, hfilter]
        simp only [List.length_cons]
        omega
      · intro k p pe hp hpe
        rw [hloop] at hp ⊢
        rw [hfilter] at hpe
        cases k with
        | zero =>
          simp only [List.getElem?_cons_zero] at hp hpe
          injection hp with hp
          injection hpe with hpe
          subst hp
          subst hpe
          obtain ⟨res2, hres2, hresle⟩ := hleF scope res hres
          refine ⟨rfl, scope, res2, hres2, ?_, ?_⟩
          · show alookup res2.name_mapping e.original_name
              = some ((calculatePathInfo env byId pid [] st).1.1.getLastD (""))
            rw [hname]
            exact hresle _ _ hmapn
          · show (if (calculatePathInfo env byId pid [] st).1.1.length > 1 then
                String.intercalate ("/")
                  (calculatePathInfo env byId pid [] st).1.1.dropLast
              else "") ≠ ("") →
              scope = (if (calculatePathInfo env byId pid [] st).1.1.length > 1 then
                String.intercalate ("/")
                  (calculatePathInfo env byId pid [] st).1.1.dropLast
              else "")
            rw [hpath]
            intro hne
            rcases hcase with ⟨_, hpc, _⟩ | ⟨_, hsc⟩
            · rw [hpc] at hne
              simp at hne
            · by_cases hpc : pcomps = []
              · rw [if_pos hpc] at hne
                simp at hne
              · rw [if_neg hpc]
                rw [if_neg hpc] at hne
                exact hsc
        | succ k1 =>
          simp only [List.getElem?_cons_succ] at hp hpe
          exact hptF k1 p pe hp hpe
    · have hloop : extractLoop env byId ((pid, e) :: rest) st
          = extractLoop env byId rest st := by
        simp only [extractLoop, if_neg hinc]
      have hfilter : ((pid, e) :: rest).filter (fun pe => includeEntry pe.2)
          = rest.filter (fun pe => includeEntry pe.2) := by
        simp [List.filter_cons, hinc]
      obtain ⟨hwfF, hleF, hlenF, hptF⟩ := ih st hwf
        (fun pe hpe => hsub pe (List.mem_cons_of_mem _ hpe))
      rw [hloop, hfilter]
      exact ⟨hwfF, hleF, hlenF, hptF⟩

/-- C1 counterexample: two distinct root-level records named "Foo" both
resolve to name "Foo" at path "", because get_unique_name caches by
original name, so the resolved list contains two distinct playlists with
equal path and equal name. -/
theorem c1_sibling_name_collision_cex :
    extractFromDatabase envId c1Records
      = [⟨("Foo"), (""), [⟨("T1"), ("A1"), ("/m/x1.mp3"), ("Foo")⟩]⟩,
         ⟨("Foo"), (""), [⟨("T2"), ("A2"), ("/m/x2.mp3"), ("Foo")⟩]⟩]
    ∧ (⟨("Foo"), (""), [⟨("T1"), ("A1"), ("/m/x1.mp3"), ("Foo")⟩]⟩ : Playlist)
        ≠ ⟨("Foo"), (""), [⟨("T2"), ("A2"), ("/m/x2.mp3"), ("Foo")⟩]⟩ := by
  have hby : buildById c1Records
      = [(("1"), ⟨[⟨("T1"), ("A1"), ("/m/x1.mp3"), ("Foo")⟩], ("root"), false, ("Foo")⟩),
         (("2"), ⟨[⟨("T2"), ("A2"), ("/m/x2.mp3"), ("Foo")⟩], ("root"), false, ("Foo")⟩)] := by
    decide
  have h1 : calculatePathInfo envId
      [(("1"), ⟨[⟨("T1"), ("A1"), ("/m/x1.mp3"), ("Foo")⟩], ("root"), false, ("Foo")⟩),
       (("2"), ⟨[⟨("T2"), ("A2"), ("/m/x2.mp3"), ("Foo")⟩], ("root"), false, ("Foo")⟩)]
      ("1") [] []
      = (([("Foo")], "root"), [(("root"), ⟨[(("Foo"), ("Foo"))], [("Foo")]⟩)]) := by
    rw [calc_eq_root envId
      [(("1"), ⟨[⟨("T1"), ("A1"), ("/m/x1.mp3"), ("Foo")⟩], ("root"), false, ("Foo")⟩),
       (("2"), ⟨[⟨("T2"), ("A2"), ("/m/x2.mp3"), ("Foo")⟩], ("root"), false, ("Foo")⟩)]
      ("1") [] []
      ⟨[⟨("T1"), ("A1"), ("/m/x1.mp3"), ("Foo")⟩], ("root"), false, ("Foo")⟩
      (by decide) (by decide) (by decide)]
    decide
  have h2 : calculatePathInfo envId
      [(("1"), ⟨[⟨("T1"), ("A1"), ("/m/x1.mp3"), ("Foo")⟩], ("root"), false, ("Foo")⟩),
       (("2"), ⟨[⟨("T2"), ("A2"), ("/m/x2.mp3"), ("Foo")⟩], ("root"), false, ("Foo")⟩)]
      ("2") [] [(("root"), ⟨[(("Foo"), ("Foo"))], [("Foo")]⟩)]
      = (([("Foo")], "root"), [(("root"), ⟨[(("Foo"), ("Foo"))], [("Foo")]⟩)]) := by
    rw [calc_eq_root envId
      [(("1"), ⟨[⟨("T1"), ("A1"), ("/m/x1.mp3"), ("Foo")⟩], ("root"), false, ("Foo")⟩),
       (("2"), ⟨[⟨("T2"), ("A2"), ("/m/x2.mp3"), ("Foo")⟩], ("root"), false, ("Foo")⟩)]
      ("2") [] [(("root"), ⟨[(("Foo"), ("Foo"))], [("Foo")]⟩)]
      ⟨[⟨("T2"), ("A2"), ("/m/x2.mp3"), ("Foo")⟩], ("root"), false, ("Foo")⟩
      (by decide) (by decide) (by decide)]
    decide
  constructor
  · simp only [extractFromDatabase, extractFromDatabaseFull]
    rw [hby]
    simp +decide only [extractLoop]
    rw [h1, h2]
    decide
  · decide

/-- C1 amended: within one extraction pass, two resolved playlists taken
at distinct positions of the result with the same nonempty path received
their names from the same per-scope resolver, hence distinct original
catalog names guarantee distinct resolved names.  The claim as stated
fails only when the two records carry the identical original name (the
resolver caches) or when both materialize at path "" through the
distinct scopes "root" and "". -/
theorem c1_sibling_names_distinct_amended (env : SanEnv)
    (records : List RBPlaylist) (i j : Nat) (p q : Playlist)
    (pe qe : String × Entry)
    (hp : (extractFromDatabase env records)[i]? = some p)
    (hq : (extractFromDatabase env records)[j]? = some q)
    (hpe : ((buildById records).filter (fun x => includeEntry x.2))[i]? = some pe)
    (hqe : ((buildById records).filter (fun x => includeEntry x.2))[j]? = some qe)
    (hpath : p.path = q.path) (hne : p.path ≠ (""))
    (horig : pe.2.original_name ≠ qe.2.original_name) :
    p.name ≠ q.name := by
  have hnd := buildById_keys_nodup records
  obtain ⟨hwfF, _, _, hpt⟩ := loop_spec env (buildById records) hnd
    (buildById records) [] WFmap_nil (fun _ h => h)
  have hp2 : (extractLoop env (buildById records) (buildById records) []).1[i]?
      = some p := hp
  have hq2 : (extractLoop env (buildById records) (buildById records) []).1[j]?
      = some q := hq
  obtain ⟨_, scope1, res1, hres1, hmap1, himp1⟩ := hpt i p pe hp2 hpe
  obtain ⟨_, scope2, res2, hres2, hmap2, himp2⟩ := hpt j q qe hq2 hqe
  have hs1 : scope1 = p.path := himp1 hne
  have hs2 : scope2 = q.path := himp2 (by rw [← hpath]; exact hne)
  have hscope : scope1 = scope2 := by rw [hs1, hs2, hpath]
  rw [hscope] at hres1
  rw [hres1] at hres2
  injection hres2 with hres12
  have hwfres : WFres res1 := wf_of_lookup hwfF hres1
  obtain ⟨_, hinj⟩ := hwfres
  have hmap2b : alookup res1.name_mapping qe.2.original_name = some q.name := by
    rw [hres12]
    exact hmap2
  exact hinj (pe.2.original_name, p.name) (al_mem hmap1)
    (qe.2.original_name, q.name) (al_mem hmap2b) horig

/-- Witness for the amended C1 at a concrete catalog: two differently
named children of one folder keep distinct names. -/
theorem c1_amended_witness :
    (⟨("X"), ("Dir"), [⟨("T1"), ("A1"), ("/m/x1.mp3"), ("X")⟩]⟩ : Playlist).name
      ≠ (⟨("Y"), ("Dir"), [⟨("T2"), ("A2"), ("/m/x2.mp3"), ("Y")⟩]⟩ : Playlist).name := by
  have hby : buildById c1wRecords = c1wById := by decide
  have hF1 : calculatePathInfo envId c1wById ("F") [("1")] []
      = (([("Dir")], "root"), [(("root"), ⟨[(("Dir"), ("Dir"))], [("Dir")]⟩)]) := by
    rw [calc_eq_root envId c1wById ("F") [("1")] []
      ⟨[], ("root"), true, ("Dir")⟩ (by decide) (by decide) (by decide)]
    decide
  have h1 : calculatePathInfo envId c1wById ("1") [] []
      = (([("Dir"), ("X")], "Dir"),
         [(("root"), ⟨[(("Dir"), ("Dir"))], [("Dir")]⟩),
          (("Dir"), ⟨[(("X"), ("X"))], [("X")]⟩)]) := by
    rw [calc_eq_parent envId c1wById ("1") [] []
      ⟨[⟨("T1"), ("A1"), ("/m/x1.mp3"), ("X")⟩], ("F"), false, ("X")⟩
      (by decide) (by decide) (by decide)]
    rw [hF1]
    decide
  have hF2 : calculatePathInfo envId c1wById ("F") [("2")]
      [(("root"), ⟨[(("Dir"), ("Dir"))], [("Dir")]⟩),
       (("Dir"), ⟨[(("X"), ("X"))], [("X")]⟩)]
      = (([("Dir")], "root"),
         [(("root"), ⟨[(("Dir"), ("Dir"))], [("Dir")]⟩),
          (("Dir"), ⟨[(("X"), ("X"))], [("X")]⟩)]) := by
    rw [calc_eq_root envId c1wById ("F") [("2")]
      [(("root"), ⟨[(("Dir"), ("Dir"))], [("Dir")]⟩),
       (("Dir"), ⟨[(("X"), ("X"))], [("X")]⟩)]
      ⟨[], ("root"), true, ("Dir")⟩ (by decide) (by decide) (by decide)]
    decide
  have h2 : calculatePathInfo envId c1wById ("2") []
      [(("root"), ⟨[(("Dir"), ("Dir"))], [("Dir")]⟩),
       (("Dir"), ⟨[(("X"), ("X"))], [("X")]⟩)]
      = (([("Dir"), ("Y")], "Dir"),
         [(("root"), ⟨[(("Dir"), ("Dir"))], [("Dir")]⟩),
          (("Dir"), ⟨[(("X"), ("X")), (("Y"), ("Y"))], [("X"), ("Y")]⟩)]) := by
    rw [calc_eq_parent envId c1wById ("2") []
      [(("root"), ⟨[(("Dir"), ("Dir"))], [("Dir")]⟩),
       (("Dir"), ⟨[(("X"), ("X"))], [("X")]⟩)]
      ⟨[⟨("T2"), ("A2"), ("/m/x2.mp3"), ("Y")⟩], ("F"), false, ("Y")⟩
      (by decide) (by decide) (by decide)]
    rw [hF2]
    decide
  have heval : extractFromDatabase envId c1wRecords
      = [⟨("X"), ("Dir"), [⟨("T1"), ("A1"), ("/m/x1.mp3"), ("X")⟩]⟩,
         ⟨("Y"), ("Dir"), [⟨("T2"), ("A2"), ("/m/x2.mp3"), ("Y")⟩]⟩] := by
    simp only [extractFromDatabase, extractFromDatabaseFull]
    rw [hby]
    simp +decide only [c1wById, extractLoop]
    rw [show c1wById
        = [(("F"), ⟨[], ("root"), true, ("Dir")⟩),
           (("1"), ⟨[⟨("T1"), ("A1"), ("/m/x1.mp3"), ("X")⟩], ("F"), false, ("X")⟩),
           (("2"), ⟨[⟨("T2"), ("A2"), ("/m/x2.mp3"), ("Y")⟩], ("F"), false, ("Y")⟩)]
      from rfl] at h1 h2
    rw [h1, h2]
    decide
  exact c1_sibling_names_distinct_amended envId c1wRecords 0 1 _ _
    (("1"), ⟨[⟨("T1"), ("A1"), ("/m/x1.mp3"), ("X")⟩], ("F"), false, ("X")⟩)
    (("2"), ⟨[⟨("T2"), ("A2"), ("/m/x2.mp3"), ("Y")⟩], ("F"), false, ("Y")⟩)
    (by rw [heval]; rfl) (by rw [heval]; rfl)
    (by rw [hby]; decide) (by rw [hby]; decide)
    rfl (by decide) (by decide)

theorem simple_eval : extractFromDatabase envId simpleRecords
    = [⟨("Solo"), (""), [⟨("T"), ("A"), ("/m/t.mp3"), ("Solo")⟩]⟩] := by
  have hby : buildById simpleRecords
      = [(("1"), ⟨[⟨("T"), ("A"), ("/m/t.mp3"), ("Solo")⟩], ("root"), false, ("Solo")⟩)] := by
    decide
  have h1 : calculatePathInfo envId
      [(("1"), ⟨[⟨("T"), ("A"), ("/m/t.mp3"), ("Solo")⟩], ("root"), false, ("Solo")⟩)]
      ("1") [] []
      = (([("Solo")], "root"), [(("root"), ⟨[(("Solo"), ("Solo"))], [("Solo")]⟩)]) := by
    rw [calc_eq_root envId
      [(("1"), ⟨[⟨("T"), ("A"), ("/m/t.mp3"), ("Solo")⟩], ("root"), false, ("Solo")⟩)]
      ("1") [] []
      ⟨[⟨("T"), ("A"), ("/m/t.mp3"), ("Solo")⟩], ("root"), false, ("Solo")⟩
      (by decide) (by decide) (by decide)]
    decide
  simp only [extractFromDatabase, extractFromDatabaseFull]
  rw [hby]
  simp +decide only [extractLoop]
  rw [h1]
  decide

/-- C2 counterexample: a non-deleted folder record and a non-deleted
empty leaf playlist both disappear from the extraction result (line 272
keeps only non-folder records with tracks), so not every non-deleted
record becomes a resolved playlist. -/
theorem c2_every_record_retained_cex :
    extractFromDatabase envId c2Records = []
    ∧ (∀ r ∈ c2Records, r.rb_local_deleted = false)
    ∧ c2Records ≠ [] := by
  refine ⟨?_, by decide, by decide⟩
  decide

/-- C2 amended: exactly the non-folder records with at least one
surviving track become resolved playlists; folders and zero-track leaf
playlists are dropped from the returned list at resolution time (they can
still be consulted as ancestors during path computation). -/
theorem c2_only_tracked_playlists_amended (env : SanEnv)
    (records : List RBPlaylist) :
    (extractFromDatabase env records).length
      = ((buildById records).filter (fun x => includeEntry x.2)).length
    ∧ ∀ p ∈ extractFromDatabase env records, p.tracks ≠ [] := by
  have hnd := buildById_keys_nodup records
  obtain ⟨_, _, hlen, hpt⟩ := loop_spec env (buildById records) hnd
    (buildById records) [] WFmap_nil (fun _ h => h)
  refine ⟨hlen, ?_⟩
  intro p hp
  obtain ⟨k, hk⟩ := List.mem_iff_getElem?.mp hp
  have hk2 : (extractLoop env (buildById records) (buildById records) []).1[k]?
      = some p := hk
  have hklt : k < (extractLoop env (buildById records) (buildById records) []).1.length := by
    by_contra hge
    rw [List.getElem?_eq_none (by omega)] at hk2
    cases hk2
  have hklt2 : k < ((buildById records).filter (fun x => includeEntry x.2)).length := by
    rw [← hlen]
    exact hklt
  have hfk : ((buildById records).filter (fun x => includeEntry x.2))[k]?
      = some (((buildById records).filter (fun x => includeEntry x.2))[k]) :=
    List.getElem?_eq_getElem hklt2
  obtain ⟨htr, _⟩ := hpt k p _ hk2 hfk
  have hmem : ((buildById records).filter (fun x => includeEntry x.2))[k]
      ∈ (buildById records).filter (fun x => includeEntry x.2) :=
    List.getElem_mem hklt2
  set pe := ((buildById records).filter (fun x => includeEntry x.2))[k] with hpe
  have hincl := (List.mem_filter.mp hmem).2
  rw [htr]
  intro hnil
  simp only [includeEntry, hnil] at hincl
  simp at hincl

/-- Witness for the amended C2: the single surviving playlist of a
one-record catalog has a nonempty track list. -/
theorem c2_amended_witness :
    ([⟨("T"), ("A"), ("/m/t.mp3"), ("Solo")⟩] : List Track) ≠ [] :=
  (c2_only_tracked_playlists_amended envId simpleRecords).2
    ⟨("Solo"), (""), [⟨("T"), ("A"), ("/m/t.mp3"), ("Solo")⟩]⟩
    (by rw [simple_eval]; exact List.mem_singleton.mpr rfl)

/-- C3: path resolution never recurses through a node already on the
current ancestor chain: a visited id returns the empty component list at
once, leaving the resolver map untouched (calculate_path_info is a total
function in this embedding, so resolution terminates on every catalog);
and on the two-cycle catalog (record A has parent B while record B has
parent A) the whole extraction evaluates to a definite result instead of
hanging. -/
theorem c3_cycle_termination :
    (∀ (env : SanEnv) (byId : List (String × Entry)) (pid : String)
       (visited : List String) (st : List (String × Resolver)),
      pid ∈ visited →
      calculatePathInfo env byId pid visited st = (([], ""), st))
    ∧ extractFromDatabase envId cycleRecords
        = [⟨("NameA"), ("NameB"), [⟨("TA"), ("ArA"), ("/m/a.mp3"), ("NameA")⟩]⟩,
           ⟨("NameB"), ("NameA"), [⟨("TB"), ("ArB"), ("/m/b.mp3"), ("NameB")⟩]⟩] := by
  constructor
  · intro env byId pid visited st hv
    exact calc_eq_visited env byId pid visited st hv
  · have hby : buildById cycleRecords
        = [(("A"), ⟨[⟨("TA"), ("ArA"), ("/m/a.mp3"), ("NameA")⟩], ("B"), false, ("NameA")⟩),
           (("B"), ⟨[⟨("TB"), ("ArB"), ("/m/b.mp3"), ("NameB")⟩], ("A"), false, ("NameB")⟩)] := by
      decide
    have hv1 : calculatePathInfo envId
        [(("A"), ⟨[⟨("TA"), ("ArA"), ("/m/a.mp3"), ("NameA")⟩], ("B"), false, ("NameA")⟩),
         (("B"), ⟨[⟨("TB"), ("ArB"), ("/m/b.mp3"), ("NameB")⟩], ("A"), false, ("NameB")⟩)]
        ("A") [("B"), ("A")] [] = (([], ""), []) :=
      calc_eq_visited envId _ ("A") [("B"), ("A")] [] (by decide)
    have hB1 : calculatePathInfo envId
        [(("A"), ⟨[⟨("TA"), ("ArA"), ("/m/a.mp3"), ("NameA")⟩], ("B"), false, ("NameA")⟩),
         (("B"), ⟨[⟨("TB"), ("ArB"), ("/m/b.mp3"), ("NameB")⟩], ("A"), false, ("NameB")⟩)]
        ("B") [("A")] []
        = (([("NameB")], ""),
           [(("" ), ⟨[(("NameB"), ("NameB"))], [("NameB")]⟩)]) := by
      rw [calc_eq_parent envId
        [(("A"), ⟨[⟨("TA"), ("ArA"), ("/m/a.mp3"), ("NameA")⟩], ("B"), false, ("NameA")⟩),
         (("B"), ⟨[⟨("TB"), ("ArB"), ("/m/b.mp3"), ("NameB")⟩], ("A"), false, ("NameB")⟩)]
        ("B") [("A")] []
        ⟨[⟨("TB"), ("ArB"), ("/m/b.mp3"), ("NameB")⟩], ("A"), false, ("NameB")⟩
        (by decide) (by decide) (by decide)]
      rw [hv1]
      decide
    have hA1 : calculatePathInfo envId
        [(("A"), ⟨[⟨("TA"), ("ArA"), ("/m/a.mp3"), ("NameA")⟩], ("B"), false, ("NameA")⟩),
         (("B"), ⟨[⟨("TB"), ("ArB"), ("/m/b.mp3"), ("NameB")⟩], ("A"), false, ("NameB")⟩)]
        ("A") [] []
        = (([("NameB"), ("NameA")], "NameB"),
           [(("" ), ⟨[(("NameB"), ("NameB"))], [("NameB")]⟩),
            (("NameB"), ⟨[(("NameA"), ("NameA"))], [("NameA")]⟩)]) := by
      rw [calc_eq_parent envId
        [(("A"), ⟨[⟨("TA"), ("ArA"), ("/m/a.mp3"), ("NameA")⟩], ("B"), false, ("NameA")⟩),
         (("B"), ⟨[⟨("TB"), ("ArB"), ("/m/b.mp3"), ("NameB")⟩], ("A"), false, ("NameB")⟩)]
        ("A") [] []
        ⟨[⟨("TA"), ("ArA"), ("/m/a.mp3"), ("NameA")⟩], ("B"), false, ("NameA")⟩
        (by decide) (by decide) (by decide)]
      rw [hB1]
      decide
    have hv2 : calculatePathInfo envId
        [(("A"), ⟨[⟨("TA"), ("ArA"), ("/m/a.mp3"), ("NameA")⟩], ("B"), false, ("NameA")⟩),
         (("B"), ⟨[⟨("TB"), ("ArB"), ("/m/b.mp3"), ("NameB")⟩], ("A"), false, ("NameB")⟩)]
        ("B") [("A"), ("B")]
        [(("" ), ⟨[(("NameB"), ("NameB"))], [("NameB")]⟩),
         (("NameB"), ⟨[(("NameA"), ("NameA"))], [("NameA")]⟩)]
        = (([], ""),
           [(("" ), ⟨[(("NameB"), ("NameB"))], [("NameB")]⟩),
            (("NameB"), ⟨[(("NameA"), ("NameA"))], [("NameA")]⟩)]) :=
      calc_eq_visited envId _ ("B") [("A"), ("B")] _ (by decide)
    have hA2 : calculatePathInfo envId
        [(("A"), ⟨[⟨("TA"), ("ArA"), ("/m/a.mp3"), ("NameA")⟩], ("B"), false, ("NameA")⟩),
         (("B"), ⟨[⟨("TB"), ("ArB"), ("/m/b.mp3"), ("NameB")⟩], ("A"), false, ("NameB")⟩)]
        ("A") [("B")]
        [(("" ), ⟨[(("NameB"), ("NameB"))], [("NameB")]⟩),
         (("NameB"), ⟨[(("NameA"), ("NameA"))], [("NameA")]⟩)]
        = (([("NameA")], ""),
           [(("" ), ⟨[(("NameB"), ("NameB")), (("NameA"), ("NameA"))],
               [("NameB"), ("NameA")]⟩),
            (("NameB"), ⟨[(("NameA"), ("NameA"))], [("NameA")]⟩)]) := by
      rw [calc_eq_parent envId
        [(("A"), ⟨[⟨("TA"), ("ArA"), ("/m/a.mp3"), ("NameA")⟩], ("B"), false, ("NameA")⟩),
         (("B"), ⟨[⟨("TB"), ("ArB"), ("/m/b.mp3"), ("NameB")⟩], ("A"), false, ("NameB")⟩)]
        ("A") [("B")]
        [(("" ), ⟨[(("NameB"), ("NameB"))], [("NameB")]⟩),
         (("NameB"), ⟨[(("NameA"), ("NameA"))], [("NameA")]⟩)]
        ⟨[⟨("TA"), ("ArA"), ("/m/a.mp3"), ("NameA")⟩], ("B"), false, ("NameA")⟩
        (by decide) (by decide) (by decide)]
      rw [hv2]
      decide
    have hB2 : calculatePathInfo envId
        [(("A"), ⟨[⟨("TA"), ("ArA"), ("/m/a.mp3"), ("NameA")⟩], ("B"), false, ("NameA")⟩),
         (("B"), ⟨[⟨("TB"), ("ArB"), ("/m/b.mp3"), ("NameB")⟩], ("A"), false, ("NameB")⟩)]
        ("B") []
        [(("" ), ⟨[(("NameB"), ("NameB"))], [("NameB")]⟩),
         (("NameB"), ⟨[(("NameA"), ("NameA"))], [("NameA")]⟩)]
        = (([("NameA"), ("NameB")], "NameA"),
           [(("" ), ⟨[(("NameB"), ("NameB")), (("NameA"), ("NameA"))],
               [("NameB"), ("NameA")]⟩),
            (("NameB"), ⟨[(("NameA"), ("NameA"))], [("NameA")]⟩),
            (("NameA"), ⟨[(("NameB"), ("NameB"))], [("NameB")]⟩)]) := by
      rw [calc_eq_parent envId
        [(("A"), ⟨[⟨("TA"), ("ArA"), ("/m/a.mp3"), ("NameA")⟩], ("B"), false, ("NameA")⟩),
         (("B"), ⟨[⟨("TB"), ("ArB"), ("/m/b.mp3"), ("NameB")⟩], ("A"), false, ("NameB")⟩)]
        ("B") []
        [(("" ), ⟨[(("NameB"), ("NameB"))], [("NameB")]⟩),
         (("NameB"), ⟨[(("NameA"), ("NameA"))], [("NameA")]⟩)]
        ⟨[⟨("TB"), ("ArB"), ("/m/b.mp3"), ("NameB")⟩], ("A"), false, ("NameB")⟩
        (by decide) (by decide) (by decide)]
      rw [hA2]
      decide
    simp only [extractFromDatabase, extractFromDatabaseFull]
    rw [hby]
    simp +decide only [extractLoop]
    rw [hA1, hB2]
    decide

/-- Witness for C3: the visited-set branch at a concrete input. -/
theorem c3_cycle_termination_witness :
    calculatePathInfo envId [] ("p") [("p")] [] = (([], ""), []) :=
  c3_cycle_termination.1 envId [] ("p") [("p")] [] (by decide)

/-- C10: a record whose parent id is neither "root" nor a known record id
resolves with an empty parent component list: its component list is just
its own resolved name, its parent path is the empty string, and that name
is claimed from the resolver stored under the key "" — a separate
instance from the resolver keyed "root".  On the concrete catalog with an
orphan "Foo" and a root-level "Foo", both records keep the name "Foo"
without any collision suffix, materialised at path "". -/
theorem c10_orphan_resolution :
    (∀ (env : SanEnv) (byId : List (String × Entry)) (pid : String)
        (visited : List String) (st : List (String × Resolver)) (e : Entry),
      pid ∉ visited → alookup byId pid = some e →
      e.parent_id ≠ ("root") → alookup byId e.parent_id = none →
      calculatePathInfo env byId pid visited st
        = (([(getUniqueName env ((alookup st ("")).getD Resolver.empty)
              e.original_name).1], ""),
           dictInsert st ("")
             (getUniqueName env ((alookup st ("")).getD Resolver.empty)
               e.original_name).2))
    ∧ extractFromDatabase envId orphanRecords
        = [⟨("Foo"), (""), [⟨("T1"), ("A1"), ("/m/x1.mp3"), ("Foo")⟩]⟩,
           ⟨("Foo"), (""), [⟨("T2"), ("A2"), ("/m/x2.mp3"), ("Foo")⟩]⟩] := by
  constructor
  · intro env byId pid visited st e hv hl hroot horphan
    rw [calc_eq_parent env byId pid visited st e hv hl hroot]
    have hinner : calculatePathInfo env byId e.parent_id (pid :: visited) st
        = (([], ""), st) := by
      by_cases hin : e.parent_id ∈ pid :: visited
      · exact calc_eq_visited env byId e.parent_id (pid :: visited) st hin
      · exact calc_eq_missing env byId e.parent_id (pid :: visited) st hin horphan
    rw [hinner]
    have hint : String.intercalate ("/") ([] : List String) = ("") := rfl
    rw [hint]
    simp
  · have hby : buildById orphanRecords
        = [(("1"), ⟨[⟨("T1"), ("A1"), ("/m/x1.mp3"), ("Foo")⟩], ("zzz"), false, ("Foo")⟩),
           (("2"), ⟨[⟨("T2"), ("A2"), ("/m/x2.mp3"), ("Foo")⟩], ("root"), false, ("Foo")⟩)] := by
      decide
    have hz : calculatePathInfo envId
        [(("1"), ⟨[⟨("T1"), ("A1"), ("/m/x1.mp3"), ("Foo")⟩], ("zzz"), false, ("Foo")⟩),
         (("2"), ⟨[⟨("T2"), ("A2"), ("/m/x2.mp3"), ("Foo")⟩], ("root"), false, ("Foo")⟩)]
        ("zzz") [("1")] [] = (([], ""), []) :=
      calc_eq_missing envId _ ("zzz") [("1")] [] (by decide) (by decide)
    have h1 : calculatePathInfo envId
        [(("1"), ⟨[⟨("T1"), ("A1"), ("/m/x1.mp3"), ("Foo")⟩], ("zzz"), false, ("Foo")⟩),
         (("2"), ⟨[⟨("T2"), ("A2"), ("/m/x2.mp3"), ("Foo")⟩], ("root"), false, ("Foo")⟩)]
        ("1") [] []
        = (([("Foo")], ""),
           [(("" ), ⟨[(("Foo"), ("Foo"))], [("Foo")]⟩)]) := by
      rw [calc_eq_parent envId
        [(("1"), ⟨[⟨("T1"), ("A1"), ("/m/x1.mp3"), ("Foo")⟩], ("zzz"), false, ("Foo")⟩),
         (("2"), ⟨[⟨("T2"), ("A2"), ("/m/x2.mp3"), ("Foo")⟩], ("root"), false, ("Foo")⟩)]
        ("1") [] []
        ⟨[⟨("T1"), ("A1"), ("/m/x1.mp3"), ("Foo")⟩], ("zzz"), false, ("Foo")⟩
        (by decide) (by decide) (by decide)]
      rw [hz]
      decide
    have h2 : calculatePathInfo envId
        [(("1"), ⟨[⟨("T1"), ("A1"), ("/m/x1.mp3"), ("Foo")⟩], ("zzz"), false, ("Foo")⟩),
         (("2"), ⟨[⟨("T2"), ("A2"), ("/m/x2.mp3"), ("Foo")⟩], ("root"), false, ("Foo")⟩)]
        ("2") [] [(("" ), ⟨[(("Foo"), ("Foo"))], [("Foo")]⟩)]
        = (([("Foo")], "root"),
           [(("" ), ⟨[(("Foo"), ("Foo"))], [("Foo")]⟩),
            (("root"), ⟨[(("Foo"), ("Foo"))], [("Foo")]⟩)]) := by
      rw [calc_eq_root envId
        [(("1"), ⟨[⟨("T1"), ("A1"), ("/m/x1.mp3"), ("Foo")⟩], ("zzz"), false, ("Foo")⟩),
         (("2"), ⟨[⟨("T2"), ("A2"), ("/m/x2.mp3"), ("Foo")⟩], ("root"), false, ("Foo")⟩)]
        ("2") [] [(("" ), ⟨[(("Foo"), ("Foo"))], [("Foo")]⟩)]
        ⟨[⟨("T2"), ("A2"), ("/m/x2.mp3"), ("Foo")⟩], ("root"), false, ("Foo")⟩
        (by decide) (by decide) (by decide)]
      decide
    simp only [extractFromDatabase, extractFromDatabaseFull]
    rw [hby]
    simp +decide only [extractLoop]
    rw [h1, h2]
    decide

/-- Witness for C10 at a concrete orphan record. -/
theorem c10_orphan_resolution_witness :
    calculatePathInfo envId [(("o"), ⟨[], ("nope"), false, ("N")⟩)] ("o") [] []
      = (([("N")], ""), [(("" ), ⟨[(("N"), ("N"))], [("N")]⟩)]) := by
  rw [c10_orphan_resolution.1 envId [(("o"), ⟨[], ("nope"), false, ("N")⟩)]
    ("o") [] [] ⟨[], ("nope"), false, ("N")⟩
    (by decide) (by decide) (by decide) (by decide)]
  decide

theorem setAdd_self_mem (s : List String) (x : String) : x ∈ setAdd s x := by
  unfold setAdd
  split
  · assumption
  · simp

/-- C6: when the canonical form of the input lies under the source root,
validate_and_convert_path returns the destination root joined by forward
slashes with the root-relative components and leaves the converter state
unchanged; when it lies outside the root, the call returns none, the
original input string is added to the rejection set, and it shows up in
the get_invalid_paths snapshot. -/
theorem c6_path_containment (resolve : ResolveOracle) (pc : PathConverter)
    (fp : String) (comps : List String) (hres : resolve fp = Except.ok comps) :
    (listIsPref pc.crates_root comps = true →
      validateAndConvertPath resolve pc fp
        = (some (pc.jellyfin_root ++ ("/")
            ++ posixJoin (comps.drop pc.crates_root.length)), pc))
    ∧ (listIsPref pc.crates_root comps = false →
      validateAndConvertPath resolve pc fp
          = (none, { pc with invalid_paths := setAdd pc.invalid_paths fp })
        ∧ fp ∈ getInvalidPaths (validateAndConvertPath resolve pc fp).2) := by
  constructor
  · intro hpref
    simp only [validateAndConvertPath, hres, hpref]
    rfl
  · intro hpref
    have heq : validateAndConvertPath resolve pc fp
        = (none, { pc with invalid_paths := setAdd pc.invalid_paths fp }) := by
      simp only [validateAndConvertPath, hres, hpref]
      rfl
    refine ⟨heq, ?_⟩
    rw [heq]
    exact setAdd_self_mem pc.invalid_paths fp

/-- Witness for C6: the worked example of the specification, with the
root /crates and the destination /data/music. -/
theorem c6_path_containment_witness :
    validateAndConvertPath
        (fun p => if p = ("/crates/A/B/t.mp3")
          then Except.ok [("crates"), ("A"), ("B"), ("t.mp3")]
          else Except.ok [("other"), ("t.mp3")])
        ⟨[("crates")], ("/data/music"), []⟩ ("/crates/A/B/t.mp3")
      = (some ("/data/music/A/B/t.mp3"), ⟨[("crates")], ("/data/music"), []⟩)
    ∧ ("/other/t.mp3") ∈ getInvalidPaths
        (validateAndConvertPath
          (fun p => if p = ("/crates/A/B/t.mp3")
            then Except.ok [("crates"), ("A"), ("B"), ("t.mp3")]
            else Except.ok [("other"), ("t.mp3")])
          ⟨[("crates")], ("/data/music"), []⟩ ("/other/t.mp3")).2 := by
  constructor
  · have := (c6_path_containment
      (fun p => if p = ("/crates/A/B/t.mp3")
        then Except.ok [("crates"), ("A"), ("B"), ("t.mp3")]
        else Except.ok [("other"), ("t.mp3")])
      ⟨[("crates")], ("/data/music"), []⟩ ("/crates/A/B/t.mp3")
      [("crates"), ("A"), ("B"), ("t.mp3")] rfl).1 (by decide)
    rw [this]
    decide
  · exact ((c6_path_containment
      (fun p => if p = ("/crates/A/B/t.mp3")
        then Except.ok [("crates"), ("A"), ("B"), ("t.mp3")]
        else Except.ok [("other"), ("t.mp3")])
      ⟨[("crates")], ("/data/music"), []⟩ ("/other/t.mp3")
      [("other"), ("t.mp3")] rfl).2 (by decide)).2

/-- C7 counterexample: when resolution raises, the failing path is not
recorded: the rejection set stays empty, contradicting the claim that the
path is recorded like an outside-root rejection. -/
theorem c7_io_error_recorded_cex :
    validateAndConvertPath (fun _ => Except.error ("boom"))
        ⟨[("crates")], ("/data/music"), []⟩ ("/crates/t.mp3")
      = (none, ⟨[("crates")], ("/data/music"), []⟩)
    ∧ getInvalidPaths
        (validateAndConvertPath (fun _ => Except.error ("boom"))
          ⟨[("crates")], ("/data/music"), []⟩ ("/crates/t.mp3")).2 = [] := by
  constructor
  · rfl
  · rfl

/-- C7 amended: an I/O error during resolution is swallowed, not raised:
the call returns none and leaves the converter state, including the
rejection set, completely unchanged (only outside-root paths are
recorded). -/
theorem c7_io_error_rejection_amended (resolve : ResolveOracle)
    (pc : PathConverter) (fp err : String)
    (h : resolve fp = Except.error err) :
    validateAndConvertPath resolve pc fp = (none, pc) := by
  simp only [validateAndConvertPath, h]

/-- Witness for the amended C7 at a concrete failing oracle. -/
theorem c7_amended_witness :
    validateAndConvertPath (fun _ => Except.error ("io fail"))
        ⟨[("crates")], ("/data/music"), [("old")]⟩ ("/crates/a.mp3")
      = (none, ⟨[("crates")], ("/data/music"), [("old")]⟩) :=
  c7_io_error_rejection_amended (fun _ => Except.error ("io fail"))
    ⟨[("crates")], ("/data/music"), [("old")]⟩ ("/crates/a.mp3") ("io fail") rfl

theorem validate_pure (resolve : ResolveOracle) (pc : PathConverter)
    (fp : String) :
    (validateAndConvertPath resolve pc fp).1
        = convertPure resolve pc.crates_root pc.jellyfin_root fp
    ∧ (validateAndConvertPath resolve pc fp).2.crates_root = pc.crates_root
    ∧ (validateAndConvertPath resolve pc fp).2.jellyfin_root = pc.jellyfin_root := by
  unfold validateAndConvertPath convertPure
  cases resolve fp with
  | error e => exact ⟨by trivial, by trivial, by trivial⟩
  | ok comps =>
    by_cases hpref : listIsPref pc.crates_root comps
    · simp only [if_pos hpref]
      exact ⟨by trivial, by trivial, by trivial⟩
    · simp only [if_neg hpref]
      exact ⟨by trivial, by trivial, by trivial⟩

theorem validTracks_pure (resolve : ResolveOracle) :
    ∀ (ts : List Track) (pc : PathConverter),
    (validTracks resolve pc ts).1
        = ts.filterMap (fun t =>
            (convertPure resolve pc.crates_root pc.jellyfin_root t.file_path).map
              (fun jp => (t, jp)))
    ∧ (validTracks resolve pc ts).2.crates_root = pc.crates_root
    ∧ (validTracks resolve pc ts).2.jellyfin_root = pc.jellyfin_root := by
  intro ts
  induction ts with
  | nil => intro pc; exact ⟨rfl, rfl, rfl⟩
  | cons t tt ih =>
    intro pc
    obtain ⟨hv, hc, hj⟩ := validate_pure resolve pc t.file_path
    obtain ⟨ihv, ihc, ihj⟩ := ih (validateAndConvertPath resolve pc t.file_path).2
    simp only [hc, hj] at ihv ihc ihj
    simp only [validTracks, List.filterMap_cons, hv]
    cases hcp : convertPure resolve pc.crates_root pc.jellyfin_root t.file_path with
    | none =>
      simp only [hcp, Option.map_none']
      exact ⟨ihv, ihc, ihj⟩
    | some jp =>
      simp only [hcp, Option.map_some']
      exact ⟨by rw [ihv], ihc, ihj⟩

theorem createLoop_writes_mem (resolve : ResolveOracle) (env : SanEnv)
    (outDir : String) (flat : Bool) (croot : List String) (jroot : String) :
    ∀ (rem : List Playlist) (nr : Resolver) (pc : PathConverter)
      (created writes : List (String × String)),
    pc.crates_root = croot → pc.jellyfin_root = jroot →
    ∀ w ∈ (createLoop resolve env outDir flat rem nr pc created writes).2.1,
    w ∈ writes ∨ ∃ p ∈ rem,
      (p.tracks.filterMap (fun t =>
          (convertPure resolve croot jroot t.file_path).map (fun jp => (t, jp)))) ≠ []
      ∧ w.2 = m3uContent (p.tracks.filterMap (fun t =>
          (convertPure resolve croot jroot t.file_path).map (fun jp => (t, jp)))) := by
  intro rem
  induction rem with
  | nil =>
    intro nr pc created writes hc hj w hw
    simp only [createLoop] at hw
    exact Or.inl hw
  | cons p rest ih =>
    intro nr pc created writes hc hj w hw
    obtain ⟨hvt, hvc, hvj⟩ := validTracks_pure resolve p.tracks pc
    rw [hc, hj] at hvt
    simp only [createLoop] at hw
    by_cases hemp : (validTracks resolve pc p.tracks).1.isEmpty
    · rw [if_pos hemp] at hw
      rcases ih _ _ _ _ (by rw [hvc, hc]) (by rw [hvj, hj]) w hw with h | ⟨p2, hp2, hne, hcont⟩
      · exact Or.inl h
      · exact Or.inr ⟨p2, List.mem_cons_of_mem _ hp2, hne, hcont⟩
    · rw [if_neg hemp] at hw
      rcases ih _ _ _ _ (by rw [hvc, hc]) (by rw [hvj, hj]) w hw with h | ⟨p2, hp2, hne, hcont⟩
      · rcases List.mem_append.mp h with h2 | h2
        · exact Or.inl h2
        · refine Or.inr ⟨p, List.mem_cons_self _ _, ?_, ?_⟩
          · rw [← hvt]
            intro hnil
            rw [hnil] at hemp
            simp at hemp
          · have hw2 : w = (_, m3uContent (validTracks resolve pc p.tracks).1) :=
              List.mem_singleton.mp h2
            rw [hw2]
            rw [hvt]
      · exact Or.inr ⟨p2, List.mem_cons_of_mem _ hp2, hne, hcont⟩

/-- C9: every file written by create_playlist_structure (in either mode)
is the playlist file of one of the input playlists: its contents start
with the literal line "#EXTM3U", followed, for each track of that
playlist that survived path conversion and in the tracks original order,
by the newline-terminated pair of lines "#EXTINF:-1,artist - title" and
the resolved destination path; and a file is only written when at least
one track survived. -/
theorem c9_m3u_format (resolve : ResolveOracle) (env : SanEnv)
    (outDir : String) (flat : Bool) (playlists : List Playlist)
    (pc : PathConverter) (w : String × String)
    (hw : w ∈ (createPlaylistStructure resolve env outDir flat playlists pc).2.1) :
    ∃ p ∈ playlists,
      (p.tracks.filterMap (fun t =>
          (convertPure resolve pc.crates_root pc.jellyfin_root t.file_path).map
            (fun jp => (t, jp)))) ≠ []
      ∧ w.2 = ("#EXTM3U\n") ++ String.join
          ((p.tracks.filterMap (fun t =>
              (convertPure resolve pc.crates_root pc.jellyfin_root t.file_path).map
                (fun jp => (t, jp)))).map
            (fun tp => ("#EXTINF:-1,") ++ tp.1.artist ++ (" - ") ++ tp.1.title
              ++ ("\n") ++ tp.2 ++ ("\n"))) := by
  have := createLoop_writes_mem resolve env outDir flat pc.crates_root
    pc.jellyfin_root playlists Resolver.empty pc [] [] rfl rfl w hw
  rcases this with h | ⟨p, hp, hne, hcont⟩
  · simp at h
  · exact ⟨p, hp, hne, hcont⟩

/-- Witness for C9 at a concrete playlist, oracle and converter. -/
theorem c9_m3u_format_witness :
    ∃ p ∈ [(⟨("Solo"), (""), [⟨("T"), ("A"), ("/m/t.mp3"), ("Solo")⟩]⟩ : Playlist)],
      (p.tracks.filterMap
          (fun t => (convertPure (fun _ => Except.ok [("crates"), ("t.mp3")])
              [("crates")] ("/data/music") t.file_path).map (fun jp => (t, jp)))) ≠ []
      ∧ (("out/Solo.m3u"),
          ("#EXTM3U\n#EXTINF:-1,A - T\n/data/music/t.mp3\n")).2
        = ("#EXTM3U\n") ++ String.join
          ((p.tracks.filterMap
              (fun t => (convertPure (fun _ => Except.ok [("crates"), ("t.mp3")])
                  [("crates")] ("/data/music") t.file_path).map (fun jp => (t, jp)))).map
            (fun tp => ("#EXTINF:-1,") ++ tp.1.artist ++ (" - ") ++ tp.1.title
              ++ ("\n") ++ tp.2 ++ ("\n"))) := by
  exact c9_m3u_format (fun _ => Except.ok [("crates"), ("t.mp3")]) envId
    ("out") false [⟨("Solo"), (""), [⟨("T"), ("A"), ("/m/t.mp3"), ("Solo")⟩]⟩]
    ⟨[("crates")], ("/data/music"), []⟩
    (("out/Solo.m3u"), ("#EXTM3U\n#EXTINF:-1,A - T\n/data/music/t.mp3\n"))
    (by decide)

/-- C8 counterexample: in flat mode the two playlists whose composite
strings coincide receive the same final base name, because the shared
resolver caches by composite string; both files are written to the same
path (the second overwrites the first) and the created dictionary holds a
single key, not "Electronic - Deep House" and "Electronic - Deep House
(1)". -/
theorem c8_flat_collision_cex :
    ((createPlaylistStructure okOracle envId ("out") true c8Playlists
        pcCrates).2.1).map Prod.fst
      = [("out/Electronic - Deep House.m3u"), ("out/Electronic - Deep House.m3u")]
    ∧ ((createPlaylistStructure okOracle envId ("out") true c8Playlists
        pcCrates).1).map Prod.fst
      = [("Electronic - Deep House")] := by
  constructor
  · decide
  · decide

/-- C8 amended: the composite flat names go through one shared resolver,
so two playlists whose composite raw strings are distinct but sanitize to
the same base receive "base" and "base (1)" in processing order; two
playlists whose composite raw strings are identical instead share one
cached name (second file overwrites the first, as the counterexample
shows). -/
theorem c8_flat_collision_amended (resolve : ResolveOracle) (env : SanEnv)
    (outDir : String) (pc : PathConverter) (p1 p2 : Playlist) (b : String)
    (hraw : flatRaw p1 ≠ flatRaw p2)
    (hb1 : pyBase env (flatRaw p1) = b) (hb2 : pyBase env (flatRaw p2) = b)
    (hv1 : p1.tracks.filterMap (fun t =>
        (convertPure resolve pc.crates_root pc.jellyfin_root t.file_path).map
          (fun jp => (t, jp))) ≠ [])
    (hv2 : p2.tracks.filterMap (fun t =>
        (convertPure resolve pc.crates_root pc.jellyfin_root t.file_path).map
          (fun jp => (t, jp))) ≠ []) :
    ((createPlaylistStructure resolve env outDir true [p1, p2] pc).1).map Prod.fst
      = [b, candName b 1] := by
  have hg1 : getUniqueName env Resolver.empty (flatRaw p1)
      = (b, ⟨[(flatRaw p1, b)], [b]⟩) := by
    simp [getUniqueName, alookup, Resolver.empty, hb1]
  have hlook2 : alookup [(flatRaw p1, b)] (flatRaw p2) = none := by
    simp only [alookup]
    rw [if_neg hraw]
  have hprobe : probeSuffix [b] b 2 1 = candName b 1 := by
    simp only [probeSuffix]
    rw [if_neg (fun hmem : candName b 1 ∈ [b] =>
      candName_ne_base b 1 (List.mem_singleton.mp hmem))]
  have hg2 : getUniqueName env ⟨[(flatRaw p1, b)], [b]⟩ (flatRaw p2)
      = (candName b 1,
         ⟨[(flatRaw p1, b), (flatRaw p2, candName b 1)], [b, candName b 1]⟩) := by
    simp only [getUniqueName, hlook2, hb2]
    rw [if_pos (List.mem_singleton.mpr rfl)]
    simp only [List.length_singleton]
    rw [hprobe]
    simp
  have hvt1 := (validTracks_pure resolve p1.tracks pc).1
  have hemp1 : (validTracks resolve pc p1.tracks).1.isEmpty = false := by
    rw [hvt1]
    cases hfm : p1.tracks.filterMap (fun t =>
        (convertPure resolve pc.crates_root pc.jellyfin_root t.file_path).map
          (fun jp => (t, jp))) with
    | nil => exact absurd hfm hv1
    | cons a l => rfl
  obtain ⟨hrc1, hrj1⟩ := (validTracks_pure resolve p1.tracks pc).2
  have hvt2 := (validTracks_pure resolve p2.tracks
    (validTracks resolve pc p1.tracks).2).1
  rw [hrc1, hrj1] at hvt2
  have hemp2 : (validTracks resolve (validTracks resolve pc p1.tracks).2
      p2.tracks).1.isEmpty = false := by
    rw [hvt2]
    cases hfm : p2.tracks.filterMap (fun t =>
        (convertPure resolve pc.crates_root pc.jellyfin_root t.file_path).map
          (fun jp => (t, jp))) with
    | nil => exact absurd hfm hv2
    | cons a l => rfl
  simp only [createPlaylistStructure, createLoop, if_true, hg1, hemp1,
    Bool.false_eq_true, if_false, hg2, hemp2, dictInsert]
  rw [if_neg (fun h : b = candName b 1 => candName_ne_base b 1 h.symm)]
  simp

/-- Witness for the amended C8: two distinct raw names that sanitize to
the base "A" receive "A" and "A (1)". -/
theorem c8_flat_collision_amended_witness :
    ((createPlaylistStructure okOracle
        ⟨fun s => if s = ("A?") then ("A") else if s = ("A*") then ("A") else s,
         fun _ => 0⟩
        ("out") true
        [⟨("A?"), (""), [⟨("T1"), ("A1"), ("/m/x1.mp3"), ("A?")⟩]⟩,
         ⟨("A*"), (""), [⟨("T2"), ("A2"), ("/m/x2.mp3"), ("A*")⟩]⟩]
        pcCrates).1).map Prod.fst
      = [("A"), ("A (1)")] := by
  have := c8_flat_collision_amended okOracle
    ⟨fun s => if s = ("A?") then ("A") else if s = ("A*") then ("A") else s,
     fun _ => 0⟩
    ("out") pcCrates
    ⟨("A?"), (""), [⟨("T1"), ("A1"), ("/m/x1.mp3"), ("A?")⟩]⟩
    ⟨("A*"), (""), [⟨("T2"), ("A2"), ("/m/x2.mp3"), ("A*")⟩]⟩
    ("A") (by decide) (by decide) (by decide) (by decide) (by decide)
  rw [this]
  decide

end RbJelly
